import Mathlib

/-!
Verification of the qir_ai evidence/draft subsystem of IncidentReview.

The Rust source is shallowly embedded: Rust `String` becomes Lean `String`
(a list of unicode scalar values), with explicit UTF-8 byte lengths
(`rustLen`) wherever the source measures bytes; fallible functions return
`Except AppErr`; a Rust panic is modelled as `Option.none` / a distinguished
error constructor.  File-system state (the evidence store, the index store)
is modelled as pure values threaded explicitly; persisted writes are
modelled as an explicit trace of write events.
-/

namespace QirAi

/-! ### Rust string primitives -/

/-- Unicode `White_Space` code points, as used by Rust `char::is_whitespace`. -/
def rustIsWhitespace (c : Char) : Bool :=
  let n := c.toNat
  (0x9 ≤ n && n ≤ 0xD) || n == 0x20 || n == 0x85 || n == 0xA0 || n == 0x1680 ||
  (0x2000 ≤ n && n ≤ 0x200A) || n == 0x2028 || n == 0x2029 || n == 0x202F ||
  n == 0x205F || n == 0x3000

def trimStartList (l : List Char) : List Char := l.dropWhile rustIsWhitespace

def trimEndList (l : List Char) : List Char := (l.reverse.dropWhile rustIsWhitespace).reverse

/-- Rust `str::trim`. -/
def rustTrim (s : String) : String := ⟨trimEndList (trimStartList s.toList)⟩

/-- Rust `str::trim_start`. -/
def rustTrimStart (s : String) : String := ⟨trimStartList s.toList⟩

/-- UTF-8 byte length of a list of chars: Rust `str::len`. -/
def utf8LenList (l : List Char) : Nat := (l.map Char.utf8Size).sum

/-- UTF-8 byte length: Rust `str::len`. -/
def rustLen (s : String) : Nat := utf8LenList s.toList

/-- Lexicographic strict order on char lists; on valid UTF-8 this coincides
with the byte-wise `Ord` on Rust `String`. -/
def ltCL : List Char → List Char → Bool
  | [], [] => false
  | [], _ :: _ => true
  | _ :: _, [] => false
  | a :: as, b :: bs => a < b || (a == b && ltCL as bs)

/-- Rust `String` strict order. -/
def strLt (a b : String) : Bool := ltCL a.toList b.toList

/-- Rust `String` non-strict order. -/
def strLe (a b : String) : Bool := !(strLt b a)

/-- Boolean list-pattern test: is the first list an initial segment of the second. -/
def isPrefixOfCL : List Char → List Char → Bool
  | [], _ => true
  | _ :: _, [] => false
  | a :: as, b :: bs => a == b && isPrefixOfCL as bs

/-- Boolean substring test on char lists. -/
def containsSubCL (pat : List Char) : List Char → Bool
  | [] => isPrefixOfCL pat []
  | c :: rest => isPrefixOfCL pat (c :: rest) || containsSubCL pat rest

/-- Rust `str::starts_with` for a literal pattern. -/
def rustStartsWith (s pat : String) : Bool := isPrefixOfCL pat.toList s.toList

/-- Rust `str::contains` for a literal pattern (substring search). -/
def rustContains (s pat : String) : Bool := containsSubCL pat.toList s.toList

/-- Rust `str::split("\n\n")`: leftmost, non-overlapping blank-line splitting. -/
def splitOnNewlinePair : List Char → List (List Char)
  | [] => [[]]
  | '\n' :: '\n' :: rest => [] :: splitOnNewlinePair rest
  | c :: rest => (splitOnNewlinePair rest).modifyHead (c :: ·)

/-- Rust `str::split('\n')`. -/
def splitOnNewline : List Char → List (List Char)
  | [] => [[]]
  | '\n' :: rest => [] :: splitOnNewline rest
  | c :: rest => (splitOnNewline rest).modifyHead (c :: ·)

/-- Join a list of strings with a separator, as Rust `Vec::join`. -/
def joinSep (sep : String) : List String → String
  | [] => ""
  | [x] => x
  | x :: y :: rest => x ++ sep ++ joinSep sep (y :: rest)

/-- Rust `str::lines`: split on `\n`, drop one trailing empty piece, and strip
a single trailing `\r` from each line. -/
def rustLines (s : String) : List String :=
  if s = "" then []
  else
    let parts := splitOnNewline s.toList
    let parts := if parts.getLast? = some [] then parts.dropLast else parts
    parts.map (fun l => if l.getLast? = some '\x0d' then ⟨l.dropLast⟩ else (⟨l⟩ : String))

/-! ### Structured errors (qir_core::error::AppError) -/

structure AppErr where
  code : String
  message : String
  details : Option String
  retryable : Bool
deriving DecidableEq, Repr

def AppErr.new (code message : String) : AppErr := ⟨code, message, none, false⟩

def AppErr.with_details (e : AppErr) (d : String) : AppErr := ⟨e.code, e.message, some d, e.retryable⟩

def AppErr.with_retryable (e : AppErr) (r : Bool) : AppErr := ⟨e.code, e.message, e.details, r⟩

/-- The `Display` rendering of an `AppError`: the details field is not shown. -/
def AppErr.display (e : AppErr) : String := "[" ++ e.code ++ "] " ++ e.message

instance {ε α : Type} [DecidableEq ε] [DecidableEq α] : DecidableEq (Except ε α) := fun x y =>
  match x, y with
  | .ok a, .ok b =>
    if h : a = b then isTrue (by rw [h]) else isFalse (fun hh => h (Except.ok.inj hh))
  | .error a, .error b =>
    if h : a = b then isTrue (by rw [h]) else isFalse (fun hh => h (Except.error.inj hh))
  | .ok _, .error _ => isFalse (fun hh => Except.noConfusion hh)
  | .error _, .ok _ => isFalse (fun hh => Except.noConfusion hh)

/-! ### Evidence data model (qir_ai::evidence::model) -/

structure EvidenceTimeRangeM where
  start_ts : Option String
  end_ts : Option String
deriving DecidableEq, Repr

structure EvidenceChunkMetaM where
  kind : String
  incident_keys : Option (List String)
  time_range : Option EvidenceTimeRangeM
deriving DecidableEq, Repr

structure EvidenceChunkM where
  chunk_id : String
  source_id : String
  ordinal : Nat
  text : String
  text_sha256 : String
  token_count_est : Nat
  meta : EvidenceChunkMetaM
deriving DecidableEq, Repr

structure EvidenceChunkSummaryM where
  chunk_id : String
  source_id : String
  ordinal : Nat
  text_sha256 : String
  token_count_est : Nat
  meta : EvidenceChunkMetaM
deriving DecidableEq, Repr

def summaryOfChunk (c : EvidenceChunkM) : EvidenceChunkSummaryM :=
  ⟨c.chunk_id, c.source_id, c.ordinal, c.text_sha256, c.token_count_est, c.meta⟩

structure CitationLocatorM where
  source_id : String
  ordinal : Nat
  text_sha256 : String
  char_range : Option (Nat × Nat)
deriving DecidableEq, Repr

structure CitationM where
  chunk_id : String
  locator : CitationLocatorM
deriving DecidableEq, Repr

/-- `EvidenceStore::citation_for_chunk`. -/
def citation_for_chunk (c : EvidenceChunkM) : CitationM :=
  ⟨c.chunk_id, ⟨c.source_id, c.ordinal, c.text_sha256, none⟩⟩

/-! ### Chunking (qir_ai::evidence::chunking / store::normalize_text) -/

/-- Leftmost non-overlapping replacement of `"\r\n"` by `"\n"`. -/
def replaceCRLF : List Char → List Char
  | [] => []
  | '\x0d' :: '\n' :: rest => '\n' :: replaceCRLF rest
  | c :: rest => c :: replaceCRLF rest

/-- Replacement of every `'\r'` by `'\n'`. -/
def replaceCR : List Char → List Char
  | [] => []
  | '\x0d' :: rest => '\n' :: replaceCR rest
  | c :: rest => c :: replaceCR rest

/-- `normalize_text`: CRLF and lone CR become LF. -/
def normalize_text (s : String) : String := ⟨replaceCR (replaceCRLF s.toList)⟩

structure ChunkDraftM where
  ordinal : Nat
  text : String
  token_count_est : Nat
  meta : EvidenceChunkMetaM
deriving DecidableEq, Repr

/-- The paragraph list computed at the top of `chunk_text_by_paragraphs`:
split the normalized text on blank lines, trim, drop empties; fall back to
the whole trimmed text when that leaves nothing. -/
def paragraphsOf (text : String) : List String :=
  let normalized := normalize_text text
  let paras := ((splitOnNewlinePair normalized.toList).map (fun p => rustTrim ⟨p⟩)).filter (fun p => p ≠ "")
  if paras.isEmpty then [rustTrim normalized] else paras

def mkDraft (kind : String) (ordinal : Nat) (text : String) : ChunkDraftM :=
  ⟨ordinal, text, min (rustLen text) (2 ^ 32 - 1), ⟨kind, none, none⟩⟩

/-- The greedy packing loop of `chunk_text_by_paragraphs`: append each
paragraph to the buffer (with a blank-line separator) unless that would push
a non-empty buffer past `maxChars` bytes, in which case the buffer is
flushed as a chunk first. -/
def packParas (kind : String) (maxChars : Nat) : List String → String → Nat → List ChunkDraftM
  | [], buf, ordinal =>
    if rustTrim buf ≠ "" then [mkDraft kind ordinal buf] else []
  | p :: rest, buf, ordinal =>
    let addLen := if buf = "" then rustLen p else 2 + rustLen p
    if buf ≠ "" ∧ rustLen buf + addLen > maxChars then
      mkDraft kind ordinal buf :: packParas kind maxChars rest p (ordinal + 1)
    else
      packParas kind maxChars rest (if buf = "" then p else buf ++ "\n\n" ++ p) ordinal

/-- `chunk_text_by_paragraphs`. -/
def chunk_text_by_paragraphs (text kind : String) (maxChars : Nat) : List ChunkDraftM :=
  packParas kind maxChars (paragraphsOf text) "" 0

/-- The chunking pipeline for a paste source: `add_source` normalizes the
paste text before persisting it, and `build_chunks_for_source` chunks it as
`"paragraph"` kind with the 1600-byte budget. -/
def buildChunksForPasteText (text : String) : List ChunkDraftM :=
  chunk_text_by_paragraphs (normalize_text text) "paragraph" 1600

/-! ### Evidence store lookups (qir_ai::evidence::store)

The on-disk chunk directory is modelled as a partial map from chunk id to
chunk.  `get_chunk` fails with the `AI_EVIDENCE_NOT_FOUND` kind when the map
has no entry (the OS error text in the details field is environment
dependent and not modelled). -/

def ChunkStore := String → Option EvidenceChunkM

def get_chunk (store : ChunkStore) (chunk_id : String) : Except AppErr EvidenceChunkM :=
  match store chunk_id with
  | some c => .ok c
  | none =>
    .error ((AppErr.new "AI_EVIDENCE_NOT_FOUND" "Evidence chunk not found").with_details
      ("id=" ++ chunk_id))

/-- The per-citation loop of `validate_citations`: look up the stored chunk,
re-derive its canonical locator and require equality (the Debug rendering of
the two locators in the details field is not modelled). -/
def validateCitationsLoop (store : ChunkStore) : List CitationM → Except AppErr Unit
  | [] => .ok ()
  | c :: rest =>
    match get_chunk store c.chunk_id with
    | .error e => .error e
    | .ok chunk =>
      let expected := citation_for_chunk chunk
      if expected.locator ≠ c.locator then
        .error ((AppErr.new "AI_CITATION_INVALID"
          "Citation locator does not match stored chunk metadata").with_details
          ("chunk_id=" ++ c.chunk_id))
      else validateCitationsLoop store rest

/-- `EvidenceStore::validate_citations`. -/
def validate_citations (store : ChunkStore) (citations : List CitationM) : Except AppErr Unit :=
  if citations = [] then
    .error (AppErr.new "AI_CITATION_REQUIRED" "At least one citation is required")
  else validateCitationsLoop store citations

/-! ### Guardrails (qir_ai::guardrails) and draft validators (qir_ai::draft) -/

/-- `enforce_citations`: the output must contain a citation marker somewhere. -/
def enforce_citations (output : String) : Except AppErr Unit :=
  if rustContains output "[[chunk:" then .ok ()
  else .error (AppErr.new "AI_CITATION_REQUIRED" "AI output must include evidence chunk citations")

inductive SectionId where
  | execSummary
  | incidentHighlightsTopN
  | themeAnalysis
  | actionPlanNextQuarter
  | quarterNarrativeRecap
deriving DecidableEq, Repr

/-- Rust `Debug` rendering of a `Vec<usize>`, used in error details. -/
def fmtNatList (l : List Nat) : String := "[" ++ joinSep ", " (l.map toString) ++ "]"

/-- A Markdown bullet line after `trim_start`: `"- "` or `"* "`. -/
def isBulletLine (line : String) : Bool :=
  let t := rustTrimStart line
  rustStartsWith t "- " || rustStartsWith t "* "

/-- Whether the trimmed line carries a citation marker. -/
def lineHasMarker (line : String) : Bool := rustContains (rustTrimStart line) "[[chunk:"

/-- The 1-based line numbers collected by `validate_each_list_item_has_citation`. -/
def missingCitationLines (markdown : String) : List Nat :=
  ((rustLines markdown).enum.filterMap (fun p =>
    if isBulletLine p.2 && !lineHasMarker p.2 then some (p.1 + 1) else none))

def validate_each_list_item_has_citation (markdown : String) : Except AppErr Unit :=
  let missing := missingCitationLines markdown
  if missing = [] then .ok ()
  else .error ((AppErr.new "AI_CITATION_REQUIRED"
    "Each list item must include at least one citation marker").with_details
    ("missing_citation_lines=" ++ fmtNatList missing))

/-- The paragraph pieces of a draft, as split by `markdown.split("\n\n")`. -/
def draftParagraphs (markdown : String) : List String :=
  (splitOnNewlinePair markdown.toList).map (fun p => (⟨p⟩ : String))

/-- The 1-based indices collected by `validate_each_paragraph_has_citation`. -/
def missingCitationParagraphs (markdown : String) : List Nat :=
  ((draftParagraphs markdown).enum.filterMap (fun p =>
    let t := rustTrim p.2
    if t = "" then none
    else if !rustContains t "[[chunk:" then some (p.1 + 1) else none))

def validate_each_paragraph_has_citation (markdown : String) : Except AppErr Unit :=
  let missing := missingCitationParagraphs markdown
  if missing = [] then .ok ()
  else .error ((AppErr.new "AI_CITATION_REQUIRED"
    "Each paragraph must include at least one citation marker").with_details
    ("missing_citation_paragraphs=" ++ fmtNatList missing))

/-- `validate_section_citations`: the baseline marker check, then the
section-specific density check. -/
def validate_section_citations (section_id : SectionId) (markdown : String) : Except AppErr Unit :=
  match enforce_citations markdown with
  | .error e => .error e
  | .ok () =>
    match section_id with
    | .execSummary => .ok ()
    | .incidentHighlightsTopN | .themeAnalysis | .actionPlanNextQuarter =>
      validate_each_list_item_has_citation markdown
    | .quarterNarrativeRecap => validate_each_paragraph_has_citation markdown

/-! ### Marker extraction (qir_ai::draft::extract_cited_chunk_ids)

The Rust scan walks byte positions; markers start with the ASCII byte `'['`
so a match can only begin at a character boundary, and the model walks char
positions with the byte-count guard `i + 8 < bytes.len()` expressed on the
remaining suffix. -/

/-- Ordered-set insertion, mirroring `BTreeSet<String>` (iteration is
ascending and duplicates collapse). -/
def insertSortedDistinct (x : String) : List String → List String
  | [] => [x]
  | y :: ys => if strLt x y then x :: y :: ys else if x = y then y :: ys else y :: insertSortedDistinct x ys

/-- The scan loop of `extract_cited_chunk_ids`.  Every recursive call
consumes at least one char, so running it with `fuel = l.length` executes
the whole scan; the fuel only makes the recursion structural. -/
def extractLoop (acc : List String) : Nat → List Char → List String
  | 0, _ => acc
  | _ + 1, [] => acc
  | fuel + 1, c :: rest =>
    if 8 < utf8LenList (c :: rest) then
      if isPrefixOfCL "[[chunk:".toList (c :: rest) then
        let after8 := (c :: rest).drop 8
        match after8.findIdx? (fun ch => ch == ']') with
        | some k =>
          let idChars := after8.take k
          let afterClose := after8.drop k
          let acc' :=
            if isPrefixOfCL "]]".toList afterClose then
              let idTrim := trimEndList (trimStartList idChars)
              if idTrim ≠ [] then insertSortedDistinct ⟨idTrim⟩ acc else acc
            else acc
          extractLoop acc' fuel (afterClose.drop 2)
        | none => extractLoop acc fuel rest
      else extractLoop acc fuel rest
    else acc

/-- `extract_cited_chunk_ids`: the distinct cited ids, in ascending order. -/
def extract_cited_chunk_ids (markdown : String) : List String :=
  extractLoop [] markdown.toList.length markdown.toList

/-! ### Stable sorting (Rust `Vec::sort` / `sort_by`)

Rust's `sort`/`sort_by` is a stable ascending sort; any stable sort yields
the same list, so it is modelled by stable insertion sort. -/

def insertStable (le : α → α → Bool) (x : α) : List α → List α
  | [] => [x]
  | y :: ys => if le y x then y :: insertStable le x ys else x :: y :: ys

def sortByStable (le : α → α → Bool) (l : List α) : List α :=
  l.foldl (fun acc x => insertStable le x acc) []

/-- Rust `Vec::<String>::sort()`. -/
def sortStrings (l : List String) : List String := sortByStable strLe l

/-- Rust `Vec::dedup()`: collapse consecutive equal elements. -/
def dedupConsec : List String → List String
  | [] => []
  | [a] => [a]
  | a :: b :: rest => if a = b then dedupConsec (b :: rest) else a :: dedupConsec (b :: rest)

/-! ### Drafting (qir_ai::draft) -/

structure AiDraftSectionRequest where
  section_id : SectionId
  quarter_label : String
  prompt : String
  citation_chunk_ids : List String
deriving DecidableEq, Repr

structure AiDraftResponse where
  section_id : SectionId
  markdown : String
  citations : List CitationM
  model_name : String
  model_params_hash : String
  prompt_template_version : String
deriving DecidableEq, Repr

/-- The chunk-resolution loop at the top of `draft_section_with_llm`:
a not-found lookup is reported as `AI_CITATION_INVALID`. -/
def resolveCitations (store : ChunkStore) : List String → Except AppErr (List CitationM)
  | [] => .ok []
  | cid :: rest =>
    match get_chunk store cid with
    | .error e =>
      .error (if e.code = "AI_EVIDENCE_NOT_FOUND" then
        (AppErr.new "AI_CITATION_INVALID" "Citation chunk_id not found").with_details
          ("chunk_id=" ++ cid)
      else e)
    | .ok chunk =>
      match resolveCitations store rest with
      | .error e => .error e
      | .ok others => .ok (citation_for_chunk chunk :: others)

def evidenceBlocksLoop (store : ChunkStore) : List String → Except AppErr (List String)
  | [] => .ok []
  | cid :: rest =>
    match get_chunk store cid with
    | .error e => .error e
    | .ok chunk =>
      match evidenceBlocksLoop store rest with
      | .error e => .error e
      | .ok others =>
        .ok (("[[chunk:" ++ cid ++ "]] source_id=" ++ chunk.source_id ++ " ordinal=" ++
          toString chunk.ordinal ++ " text_sha256=" ++ chunk.text_sha256 ++ "\n" ++ chunk.text)
          :: others)

/-- `build_evidence_blocks`. -/
def build_evidence_blocks (store : ChunkStore) (chunk_ids : List String) : Except AppErr String :=
  match evidenceBlocksLoop store chunk_ids with
  | .error e => .error e
  | .ok blocks => .ok (joinSep "\n\n---\n\n" blocks)

def exec_summary_prompt (quarter_label user_prompt evidence_blocks : String) : String :=
  "You are drafting a Quarterly Incident Review executive summary for quarter \"" ++
  quarter_label ++ "\".\n\nRules (non-negotiable):\n" ++
  "1) Use ONLY the evidence chunks provided below. Do not invent facts.\n" ++
  "2) Every concrete claim MUST include an inline citation marker in the form [[chunk:<chunk_id>]].\n" ++
  "3) If you cannot support a claim with evidence, write UNKNOWN (and do not cite).\n" ++
  "4) Do not compute or infer metrics; treat any metrics in evidence as already computed.\n\n" ++
  "User prompt:\n" ++ user_prompt ++ "\n\nEvidence chunks:\n" ++ evidence_blocks ++
  "\n\nOutput:\n- Return Markdown only.\n- Include inline citations as specified.\n"

def incident_highlights_top_n_prompt (quarter_label user_prompt evidence_blocks : String) : String :=
  "You are drafting the \"Incident Highlights\" section for a Quarterly Incident Review for quarter \"" ++
  quarter_label ++ "\".\n\nRules (non-negotiable):\n" ++
  "1) Use ONLY the evidence chunks provided below. Do not invent facts.\n" ++
  "2) Each bullet MUST include at least one inline citation marker in the form [[chunk:<chunk_id>]] on the same line.\n" ++
  "3) Do not compute or infer metrics; treat any metrics in evidence as already computed.\n" ++
  "4) If you cannot support a highlight with evidence, omit it entirely.\n\n" ++
  "User prompt:\n" ++ user_prompt ++ "\n\nEvidence chunks:\n" ++ evidence_blocks ++
  "\n\nOutput:\n- Return Markdown only.\n- Use a bulleted list. Each bullet must contain >= 1 citation marker on the same line.\n"

def theme_analysis_prompt (quarter_label user_prompt evidence_blocks : String) : String :=
  "You are drafting the \"Theme Analysis\" section for a Quarterly Incident Review for quarter \"" ++
  quarter_label ++ "\".\n\nRules (non-negotiable):\n" ++
  "1) Use ONLY the evidence chunks provided below. Do not invent facts.\n" ++
  "2) Each theme MUST include at least one inline citation marker in the form [[chunk:<chunk_id>]] on the same line.\n" ++
  "3) Do not compute or infer metrics; treat any metrics in evidence as already computed.\n" ++
  "4) If you cannot support a theme with evidence, omit it entirely.\n\n" ++
  "User prompt:\n" ++ user_prompt ++ "\n\nEvidence chunks:\n" ++ evidence_blocks ++
  "\n\nOutput:\n- Return Markdown only.\n- Use a bulleted list of themes (one theme per bullet). Each bullet must contain >= 1 citation marker on the same line.\n"

def action_plan_next_quarter_prompt (quarter_label user_prompt evidence_blocks : String) : String :=
  "You are drafting the \"Action Plan (Next Quarter)\" section for a Quarterly Incident Review for quarter \"" ++
  quarter_label ++ "\".\n\nRules (non-negotiable):\n" ++
  "1) Use ONLY the evidence chunks provided below. Do not invent facts.\n" ++
  "2) Each action MUST include at least one inline citation marker in the form [[chunk:<chunk_id>]] on the same line.\n" ++
  "3) Do not compute or infer metrics; treat any metrics in evidence as already computed.\n" ++
  "4) If you cannot support an action with evidence, omit it entirely.\n\n" ++
  "User prompt:\n" ++ user_prompt ++ "\n\nEvidence chunks:\n" ++ evidence_blocks ++
  "\n\nOutput:\n- Return Markdown only.\n- Use a bulleted list of actions (one action per bullet). Each bullet must contain >= 1 citation marker on the same line.\n"

def quarter_narrative_recap_prompt (quarter_label user_prompt evidence_blocks : String) : String :=
  "You are drafting the \"Quarter Narrative Recap\" section for a Quarterly Incident Review for quarter \"" ++
  quarter_label ++ "\".\n\nRules (non-negotiable):\n" ++
  "1) Use ONLY the evidence chunks provided below. Do not invent facts.\n" ++
  "2) Each paragraph MUST include at least one inline citation marker in the form [[chunk:<chunk_id>]] within that paragraph.\n" ++
  "3) Do not compute or infer metrics; treat any metrics in evidence as already computed.\n" ++
  "4) If you cannot support a paragraph with evidence, omit it entirely.\n\n" ++
  "User prompt:\n" ++ user_prompt ++ "\n\nEvidence chunks:\n" ++ evidence_blocks ++
  "\n\nOutput:\n- Return Markdown only.\n- Write 2-6 short paragraphs (separated by blank lines). Each paragraph must contain >= 1 citation marker.\n"

def promptFor (sid : SectionId) (quarter_label user_prompt evidence_blocks : String) : String :=
  match sid with
  | .execSummary => exec_summary_prompt quarter_label user_prompt evidence_blocks
  | .incidentHighlightsTopN => incident_highlights_top_n_prompt quarter_label user_prompt evidence_blocks
  | .themeAnalysis => theme_analysis_prompt quarter_label user_prompt evidence_blocks
  | .actionPlanNextQuarter => action_plan_next_quarter_prompt quarter_label user_prompt evidence_blocks
  | .quarterNarrativeRecap => quarter_narrative_recap_prompt quarter_label user_prompt evidence_blocks

def template_version_for (sid : SectionId) : String :=
  match sid with
  | .execSummary => "exec_summary_v1"
  | .incidentHighlightsTopN => "incident_highlights_top_n_v1"
  | .themeAnalysis => "theme_analysis_v1"
  | .actionPlanNextQuarter => "action_plan_next_quarter_v1"
  | .quarterNarrativeRecap => "quarter_narrative_recap_v1"

def hexDigitChar (n : Nat) : Char := Char.ofNat (if n < 10 then 48 + n else 87 + n)

/-- serde_json escaping of a string scalar. -/
def jsonEscapeChar (c : Char) : String :=
  if c = '"' then "\\\""
  else if c = '\\' then "\\\\"
  else if c = '\n' then "\\n"
  else if c = '\x0d' then "\\r"
  else if c = '\t' then "\\t"
  else if c = '\x08' then "\\b"
  else if c = '\x0c' then "\\f"
  else if c.toNat < 0x20 then ⟨['\\', 'u', '0', '0', hexDigitChar (c.toNat / 16), hexDigitChar (c.toNat % 16)]⟩
  else ⟨[c]⟩

def jsonEscape (s : String) : String := joinSep "" (s.toList.map jsonEscapeChar)

/-- `compute_model_params_hash`: the SHA-256 hex digest (abstracted as the
function argument `sha256_hex`) of the serde_json encoding of the
generation parameters. -/
def compute_model_params_hash (sha256_hex : String → String) (model : String) : String :=
  sha256_hex ("\x7b\"v\":1,\"api\":\"/api/generate\",\"model\":\"" ++ jsonEscape model ++
    "\",\"stream\":false\x7d")

/-- The cross-check loop: every cited id must be in the caller-approved set. -/
def checkAllowedLoop (allowed : List String) : List String → Except AppErr Unit
  | [] => .ok ()
  | cid :: rest =>
    if allowed.contains cid then checkAllowedLoop allowed rest
    else .error ((AppErr.new "AI_CITATION_INVALID" "Draft cited an unapproved chunk_id").with_details
      ("chunk_id=" ++ cid))

/-- The response-assembly loop: re-resolve each distinct cited id. -/
def outCitationsLoop (store : ChunkStore) : List String → Except AppErr (List CitationM)
  | [] => .ok []
  | cid :: rest =>
    match get_chunk store cid with
    | .error e => .error e
    | .ok chunk =>
      match outCitationsLoop store rest with
      | .error e => .error e
      | .ok others => .ok (citation_for_chunk chunk :: others)

/-- `draft_section_with_llm`.  The generation provider is the function
`llm` (from model and prompt to output), and SHA-256 is abstracted as
`sha256_hex`; neither affects any control path below. -/
def draft_section_with_llm (store : ChunkStore) (llm : String → String → Except AppErr String)
    (sha256_hex : String → String) (model : String) (req : AiDraftSectionRequest) :
    Except AppErr AiDraftResponse :=
  if req.citation_chunk_ids = [] then
    .error (AppErr.new "AI_CITATION_REQUIRED" "At least one citation chunk must be selected")
  else
    match resolveCitations store req.citation_chunk_ids with
    | .error e => .error e
    | .ok citations =>
      match validate_citations store citations with
      | .error e => .error e
      | .ok () =>
        match build_evidence_blocks store req.citation_chunk_ids with
        | .error e => .error e
        | .ok evidence_blocks =>
          let prompt := promptFor req.section_id req.quarter_label req.prompt evidence_blocks
          let tv := template_version_for req.section_id
          let mph := compute_model_params_hash sha256_hex model
          match llm model prompt with
          | .error e => .error e
          | .ok markdown =>
            match validate_section_citations req.section_id markdown with
            | .error e =>
              .error ((AppErr.new "AI_CITATION_REQUIRED" "Draft missing citations").with_details
                e.display)
            | .ok () =>
              let cited_ids := extract_cited_chunk_ids markdown
              if cited_ids = [] then
                .error (AppErr.new "AI_CITATION_REQUIRED" "Draft missing citations")
              else
                match checkAllowedLoop req.citation_chunk_ids cited_ids with
                | .error e => .error e
                | .ok () =>
                  match outCitationsLoop store (dedupConsec (sortStrings cited_ids)) with
                  | .error e => .error e
                  | .ok out_citations =>
                    .ok ⟨req.section_id, markdown, out_citations, model, mph, tv⟩

/-! ### Index store (qir_ai::evidence::index)

The persisted `BTreeMap` documents are modelled as association lists sorted
by key (which is also the map's iteration order); the three end-of-build
document writes are recorded as an explicit trace, and the trace of
embedder invocations (the chunk ids embedded, in order) is returned
alongside the result. -/

structure AiIndexStatusM where
  ready : Bool
  model : Option String
  dims : Option Nat
  chunk_count : Nat
  chunks_total : Nat
  source_id : Option String
  updated_at : Option String
deriving DecidableEq, Repr

/-- The `{ready: false}` default returned by `status()` when no status
document exists. -/
def defaultIndexStatus : AiIndexStatusM := ⟨false, none, none, 0, 0, none, none⟩

structure AiIndexBuildInputM where
  model : String
  source_id : Option String
  updated_at : String
deriving DecidableEq, Repr

def mapGet (m : List (String × α)) (k : String) : Option α :=
  (m.find? (fun p => p.1 == k)).map (fun p => p.2)

/-- `BTreeMap::insert` on a key-sorted association list. -/
def mapInsert (k : String) (v : α) : List (String × α) → List (String × α)
  | [] => [(k, v)]
  | (k', v') :: rest =>
    if strLt k k' then (k, v) :: (k', v') :: rest
    else if k = k' then (k, v) :: rest
    else (k', v') :: mapInsert k v rest

/-- `BTreeMap::retain`. -/
def mapRetain (p : String → Bool) (m : List (String × α)) : List (String × α) :=
  m.filter (fun kv => p kv.1)

inductive IndexWrite where
  | vectors (m : List (String × List ℚ))
  | hashes (m : List (String × String))
  | status (st : AiIndexStatusM)
deriving DecidableEq, Repr

/-- The evidence store's chunk set, as a plain list; `get_chunk` looks up by
chunk id in it. -/
def storeOf (chunks : List EvidenceChunkM) : ChunkStore :=
  fun id => chunks.find? (fun c => c.chunk_id == id)

def summaryLeTriple (a b : EvidenceChunkSummaryM) : Bool :=
  strLt a.source_id b.source_id ||
  (a.source_id == b.source_id &&
    (decide (a.ordinal < b.ordinal) ||
      (a.ordinal == b.ordinal && strLe a.chunk_id b.chunk_id)))

/-- `EvidenceStore::list_chunks`: the summaries in scope, ordered by
`(source_id, ordinal, chunk_id)`. -/
def list_chunks (chunks : List EvidenceChunkM) (source_id : Option String) :
    List EvidenceChunkSummaryM :=
  let selected : List EvidenceChunkM :=
    match source_id with
    | some sid => chunks.filter (fun c => c.source_id == sid)
    | none => chunks
  sortByStable summaryLeTriple (selected.map summaryOfChunk)

/-- The embedding loop of `build_with_embedder`: the first observed vector
length fixes `dims`; any later mismatch is a hard error.  The second
component of the result is the ordered list of chunk ids for which the
embedder was actually invoked. -/
def embedLoop (chunks : List EvidenceChunkM) (embed : String → String → Except AppErr (List ℚ))
    (model : String) :
    List String → Option Nat → List (String × List ℚ) →
    Except AppErr (Option Nat × List (String × List ℚ)) × List String
  | [], dims, vectors => (.ok (dims, vectors), [])
  | chunk_id :: rest, dims, vectors =>
    match get_chunk (storeOf chunks) chunk_id with
    | .error e => (.error e, [])
    | .ok chunk =>
      match embed model chunk.text with
      | .error e =>
        (.error (((AppErr.new "AI_EMBEDDINGS_FAILED" "Failed to compute embeddings").with_details
          ("chunk_id=" ++ chunk_id ++ "; err=" ++ e.display)).with_retryable e.retryable),
         [chunk_id])
      | .ok v =>
        let this_dims := v.length
        match dims with
        | some d =>
          if d ≠ this_dims then
            (.error ((AppErr.new "AI_INDEX_BUILD_FAILED"
              "Embedding dimension mismatch across chunks").with_details
              ("expected=" ++ toString d ++ "; got=" ++ toString this_dims ++
                "; chunk_id=" ++ chunk_id)), [chunk_id])
          else
            let r := embedLoop chunks embed model rest (some d) (mapInsert chunk_id v vectors)
            (r.1, chunk_id :: r.2)
        | none =>
          let r := embedLoop chunks embed model rest (some this_dims) (mapInsert chunk_id v vectors)
          (r.1, chunk_id :: r.2)

/-- The "needs re-embedding" set of `build_with_embedder`: chunks whose
cached hash differs from the current `text_sha256` or that lack a cached
vector, collected, sorted and deduplicated. -/
def toEmbedIds (summaries : List EvidenceChunkSummaryM) (vectors : List (String × List ℚ))
    (hashes : List (String × String)) : List String :=
  dedupConsec (sortStrings (summaries.filterMap (fun s =>
    if mapGet hashes s.chunk_id ≠ some s.text_sha256 ∨ mapGet vectors s.chunk_id = none then
      some s.chunk_id
    else none)))

/-- `IndexStore::build_with_embedder`, from the persisted state
`(current, vecs0, hashes0)`.  Returns the result, the trace of document
writes performed, and the trace of embedder calls. -/
def build_with_embedder (chunks : List EvidenceChunkM)
    (embed : String → String → Except AppErr (List ℚ))
    (current : AiIndexStatusM) (vecs0 : List (String × List ℚ)) (hashes0 : List (String × String))
    (input : AiIndexBuildInputM) :
    Except AppErr AiIndexStatusM × List IndexWrite × List String :=
  let chunk_summaries := list_chunks chunks input.source_id
  if chunk_summaries = [] then
    (.error (AppErr.new "AI_INDEX_NOT_READY"
      "No chunks available; build chunks before building the index"), [], [])
  else
    let ids := sortStrings (chunk_summaries.map (fun c => c.chunk_id))
    let compatible := current.ready && current.model == some input.model &&
      current.source_id == input.source_id
    let vectors := mapRetain (fun k => ids.contains k) (if compatible then vecs0 else [])
    let hashes := mapRetain (fun k => ids.contains k) (if compatible then hashes0 else [])
    let to_embed := toEmbedIds chunk_summaries vectors hashes
    let dims0 := if compatible then current.dims else none
    match embedLoop chunks embed input.model to_embed dims0 vectors with
    | (.error e, calls) => (.error e, [], calls)
    | (.ok (dims, vectors), calls) =>
      let hashes := chunk_summaries.foldl (fun h s => mapInsert s.chunk_id s.text_sha256 h) hashes
      let newStatus : AiIndexStatusM :=
        ⟨true, some input.model, dims, vectors.length, ids.length, input.source_id,
          some input.updated_at⟩
      (.ok newStatus, [.vectors vectors, .hashes hashes, .status newStatus], calls)

/-! ### Snippets (qir_ai::evidence::store::snippet_first_chars, duplicated in
qir_ai::retrieve)

The Rust function byte-slices the trimmed text at `max_chars`; slicing at a
byte offset that is not a character boundary panics, modelled as `none`. -/

/-- The prefix of a char list occupying exactly `n` UTF-8 bytes, when `n`
is a character boundary; `none` models the Rust slicing panic. -/
def slicePrefixBytes : List Char → Nat → Option (List Char)
  | _, 0 => some []
  | [], _ + 1 => none
  | c :: cs, n + 1 =>
    if c.utf8Size ≤ n + 1 then (slicePrefixBytes cs (n + 1 - c.utf8Size)).map (c :: ·)
    else none

/-- `snippet_first_chars`: `none` models a panic. -/
def snippet_first_chars (text : String) (max_chars : Nat) : Option String :=
  let t := rustTrim text
  if rustLen t ≤ max_chars then some t
  else
    match slicePrefixBytes t.toList max_chars with
    | some l => some ((⟨l⟩ : String) ++ "...")
    | none => none

/-! ### Ollama network policy (qir_ai::ollama::OllamaClient::new) -/

/-- Rust `str::trim_end_matches('/')`. -/
def trimEndSlashes (s : String) : String :=
  ⟨(s.toList.reverse.dropWhile (fun c => c == '/')).reverse⟩

/-- The `base_url` normalization at the top of `OllamaClient::new`. -/
def ollama_base_url_strip (s : String) : String := trimEndSlashes (rustTrim s)

/-- Rust `str::split_once(':')`. -/
def splitOnceColon : List Char → Option (List Char × List Char)
  | [] => none
  | c :: rest =>
    if c = ':' then some ([], rest)
    else (splitOnceColon rest).map (fun p => (c :: p.1, p.2))

/-- The optional leading sign accepted by Rust's `u16::from_str`: one `'+'`
may precede the digits. -/
def stripPlusSign (l : List Char) : List Char :=
  match l with
  | c :: rest => if c = '+' then rest else c :: rest
  | [] => []

/-- Rust `str::parse::<u16>()`: an optional leading `'+'`, then one or more
ASCII digits, rejecting values above `u16::MAX`. -/
def parseU16 (l : List Char) : Option Nat :=
  let l' := stripPlusSign l
  if l' = [] then none
  else if l'.all (fun c => c.isDigit) then
    let v := l'.foldl (fun n c => n * 10 + (c.toNat - 48)) 0
    if v ≤ 65535 then some v else none
  else none

/-- The body of `validate_base_url` after the `strip_prefix("http://")`
binding succeeded: `rest` is the URL with the scheme removed. -/
def validate_rest (rest : List Char) : Bool :=
  if rest.contains '/' || rest.contains '?' || rest.contains '#' || rest.contains '@' then false
  else
    match splitOnceColon rest with
    | none => rest == "127.0.0.1".toList
    | some (host, p) =>
      if host ≠ "127.0.0.1".toList then false
      else if p = [] then false
      else match parseU16 p with
        | some v => decide (v ≠ 0)
        | none => false

/-- The inner `validate_base_url` of `OllamaClient::new`. -/
def validate_base_url (url : String) : Bool :=
  if isPrefixOfCL "http://".toList url.toList then validate_rest (url.toList.drop 7)
  else false

/-- `OllamaClient::new`: on success the stored `base_url` is returned. -/
def ollama_client_new (base_url : String) : Except AppErr String :=
  let b := ollama_base_url_strip base_url
  if validate_base_url b then .ok b
  else
    .error ((AppErr.new "AI_REMOTE_NOT_ALLOWED"
      "Ollama base URL must be http://127.0.0.1[:port]").with_details ("base_url=" ++ b))

/-- The specification's port requirement, read literally: the characters
after the colon form a numeric (all ASCII digits) non-zero port at most
65535. -/
def portDigitsOk (p : List Char) : Bool :=
  decide (p ≠ []) && p.all (fun c => c.isDigit) &&
    (let v : Nat := p.foldl (fun n c => n * 10 + (c.toNat - 48)) 0
     decide (1 ≤ v ∧ v ≤ 65535))

/-- The amended port requirement: one optional leading `'+'` sign, then
ASCII digits denoting a non-zero value at most 65535 (matching Rust's
`u16::from_str`). -/
def portPlusOk (p0 : List Char) : Bool :=
  let p := stripPlusSign p0
  decide (p ≠ []) && p.all (fun c => c.isDigit) &&
    (let v : Nat := p.foldl (fun n c => n * 10 + (c.toNat - 48)) 0
     decide (1 ≤ v ∧ v ≤ 65535))

/-- Acceptance condition of the claim, read literally: after trimming and
stripping trailing slashes, the URL is exactly `http://127.0.0.1`,
optionally followed by `':'` and a numeric non-zero port at most 65535. -/
def claim_accepts_base_url (s : String) : Bool :=
  let b := (ollama_base_url_strip s).toList
  b == "http://127.0.0.1".toList ||
    (isPrefixOfCL "http://127.0.0.1:".toList b && portDigitsOk (b.drop 17))

/-- The amended acceptance condition over the stripped character list:
exactly `http://127.0.0.1`, or `http://127.0.0.1:` followed by a port with
an optional leading `'+'` sign. -/
def amendedCore (b : List Char) : Bool :=
  b == "http://127.0.0.1".toList ||
    (isPrefixOfCL "http://127.0.0.1:".toList b && portPlusOk (b.drop 17))

/-- The amended acceptance condition of the claim. -/
def amended_accepts_base_url (s : String) : Bool :=
  amendedCore (ollama_base_url_strip s).toList

/-! ### Retrieval (qir_ai::retrieve)

Floating-point vector components are idealized as rationals and the derived
norms and similarity scores as real numbers. -/

/-- The sum of squares inside `l2_norm`. -/
def sumSq (v : List ℚ) : ℚ := v.foldl (fun s x => s + x * x) 0

/-- The dot product inside `cosine_similarity` (`iter().zip`). -/
def dotQ (a b : List ℚ) : ℚ := (a.zip b).foldl (fun s p => s + p.1 * p.2) 0

/-- `similarity::l2_norm`. -/
noncomputable def l2_norm (v : List ℚ) : ℝ := Real.sqrt ((sumSq v : ℚ) : ℝ)

/-- `similarity::cosine_similarity`. -/
noncomputable def cosine_similarity (a b : List ℚ) (a_norm b_norm : ℝ) : ℝ :=
  ((dotQ a b : ℚ) : ℝ) / (a_norm * b_norm)

structure EvidenceQueryHitM where
  chunk_id : String
  source_id : String
  score : ℝ
  snippet : String
  citation : CitationM

structure EvidenceQueryResponseM where
  hits : List EvidenceQueryHitM

/-- A query failure: a structured error, or a Rust panic (from the
byte-slicing snippet helper). -/
inductive QErr where
  | app (e : AppErr)
  | panicked

open scoped Classical in
/-- The per-vector loop of `query_with_embedder`: dims check, optional
source filter, zero-norm skip, cosine scoring. -/
noncomputable def candLoop (chunks : List EvidenceChunkM) (source_filter : Option (List String))
    (dims : Nat) (qv : List ℚ) (qnorm : ℝ) :
    List (String × List ℚ) → Except QErr (List (String × ℝ))
  | [] => .ok []
  | (chunk_id, v) :: rest =>
    if v.length ≠ dims then
      .error (.app ((AppErr.new "AI_RETRIEVAL_FAILED" "Index vector dims mismatch").with_details
        ("chunk_id=" ++ chunk_id ++ "; expected=" ++ toString dims ++ "; got=" ++
          toString v.length)))
    else
      let keepR : Except QErr Bool :=
        match source_filter with
        | some filter =>
          match get_chunk (storeOf chunks) chunk_id with
          | .error e => .error (.app e)
          | .ok chunk => .ok (filter.contains chunk.source_id)
        | none => .ok true
      match keepR with
      | .error e => .error e
      | .ok keep =>
        if keep then
          let vnorm := l2_norm v
          if vnorm = 0 then candLoop chunks source_filter dims qv qnorm rest
          else
            match candLoop chunks source_filter dims qv qnorm rest with
            | .error e => .error e
            | .ok rest' => .ok ((chunk_id, cosine_similarity qv v qnorm vnorm) :: rest')
        else candLoop chunks source_filter dims qv qnorm rest

open scoped Classical in
/-- The Rust comparator `b.score.partial_cmp(&a.score).unwrap_or(Equal)
.then(a.chunk_id.cmp(&b.chunk_id))`, as a sort-precedence test: `a` may come
before `b` when `a` scores higher, or scores tie and `a.chunk_id ≤ b.chunk_id`. -/
noncomputable def hitLe (a b : String × ℝ) : Bool :=
  decide (b.2 < a.2 ∨ (a.2 = b.2 ∧ strLe a.1 b.1 = true))

/-- The final loop of `query_with_embedder`: re-resolve each surviving hit,
attach snippet and citation. -/
noncomputable def assembleHits (chunks : List EvidenceChunkM) :
    List (String × ℝ) → Except QErr (List EvidenceQueryHitM)
  | [] => .ok []
  | (chunk_id, score) :: rest =>
    match get_chunk (storeOf chunks) chunk_id with
    | .error e => .error (.app e)
    | .ok chunk =>
      match snippet_first_chars chunk.text 280 with
      | none => .error .panicked
      | some snip =>
        match assembleHits chunks rest with
        | .error e => .error e
        | .ok others =>
          .ok (⟨chunk.chunk_id, chunk.source_id, score, snip, citation_for_chunk chunk⟩ :: others)

open scoped Classical in
/-- `query_with_embedder`. -/
noncomputable def query_with_embedder (chunks : List EvidenceChunkM) (status : AiIndexStatusM)
    (vectors : List (String × List ℚ)) (embed : String → String → Except AppErr (List ℚ))
    (query : String) (top_k : Nat) (source_filter : Option (List String)) :
    Except QErr EvidenceQueryResponseM :=
  let q := rustTrim query
  if q = "" then .error (.app (AppErr.new "AI_RETRIEVAL_FAILED" "Query must not be empty"))
  else
    let top_k := min (max top_k 1) 50
    if status.ready = false then
      .error (.app (AppErr.new "AI_INDEX_NOT_READY"
        "Index not ready; build the index before querying"))
    else
      match status.model with
      | none => .error (.app (AppErr.new "AI_INDEX_NOT_READY" "Index status missing model"))
      | some model =>
        match status.dims with
        | none => .error (.app (AppErr.new "AI_INDEX_NOT_READY" "Index status missing dims"))
        | some dims =>
          match embed model q with
          | .error e => .error (.app e)
          | .ok qv =>
            if qv.length ≠ dims then
              .error (.app ((AppErr.new "AI_RETRIEVAL_FAILED"
                "Query embedding dims do not match index dims").with_details
                ("index_dims=" ++ toString dims ++ "; query_dims=" ++ toString qv.length)))
            else if vectors = [] then
              .error (.app (AppErr.new "AI_INDEX_NOT_READY" "Index vectors missing; rebuild index"))
            else
              let qnorm := l2_norm qv
              if qnorm = 0 then
                .error (.app (AppErr.new "AI_RETRIEVAL_FAILED" "Query embedding norm is zero"))
              else
                match candLoop chunks source_filter dims qv qnorm vectors with
                | .error e => .error e
                | .ok hits =>
                  match assembleHits chunks ((sortByStable hitLe hits).take top_k) with
                  | .error e => .error e
                  | .ok out => .ok ⟨out⟩

/-! ### General lemmas about the stable sort -/

lemma insertStable_perm (le : α → α → Bool) (x : α) (l : List α) :
    List.Perm (insertStable le x l) (x :: l) := by
  induction l with
  | nil => simp [insertStable]
  | cons y ys ih =>
    simp only [insertStable]
    split
    · exact (ih.cons y).trans (List.Perm.swap x y ys)
    · exact List.Perm.refl _

lemma sortByStable_perm (le : α → α → Bool) (l : List α) : List.Perm (sortByStable le l) l := by
  suffices h : ∀ (acc : List α),
      List.Perm (List.foldl (fun acc x => insertStable le x acc) acc l) (acc ++ l) by
    simpa using h []
  induction l with
  | nil => simp
  | cons x xs ih =>
    intro acc
    refine (ih _).trans ?_
    refine (List.Perm.append_right xs (insertStable_perm le x acc)).trans ?_
    simpa using (List.perm_middle : List.Perm (acc ++ x :: xs) (x :: (acc ++ xs))).symm

lemma insertStable_pairwise (le : α → α → Bool)
    (htrans : ∀ a b c, le a b = true → le b c = true → le a c = true)
    (htot : ∀ a b, le a b = true ∨ le b a = true)
    (x : α) (l : List α) (h : l.Pairwise (fun a b => le a b = true)) :
    (insertStable le x l).Pairwise (fun a b => le a b = true) := by
  induction l with
  | nil => simp [insertStable]
  | cons y ys ih =>
    rcases h with _ | ⟨hy, hys⟩
    simp only [insertStable]
    split
    · refine List.Pairwise.cons ?_ (ih hys)
      intro z hz
      have hz' : z ∈ x :: ys := (insertStable_perm le x ys).mem_iff.mp hz
      rcases List.mem_cons.mp hz' with rfl | hz''
      · assumption
      · exact hy z hz''
    · refine List.Pairwise.cons ?_ (List.Pairwise.cons hy hys)
      intro z hz
      have hxy : le x y = true := by
        rcases htot x y with h' | h'
        · exact h'
        · simp_all
      rcases List.mem_cons.mp hz with rfl | hz''
      · exact hxy
      · exact htrans x y z hxy (hy z hz'')

lemma sortByStable_pairwise (le : α → α → Bool)
    (htrans : ∀ a b c, le a b = true → le b c = true → le a c = true)
    (htot : ∀ a b, le a b = true ∨ le b a = true) (l : List α) :
    (sortByStable le l).Pairwise (fun a b => le a b = true) := by
  suffices h : ∀ (acc : List α), acc.Pairwise (fun a b => le a b = true) →
      (List.foldl (fun acc x => insertStable le x acc) acc l).Pairwise (fun a b => le a b = true) by
    exact h [] (by simp)
  induction l with
  | nil => intro acc hacc; simpa using hacc
  | cons x xs ih =>
    intro acc hacc
    exact ih _ (insertStable_pairwise le htrans htot x acc hacc)

/-! ### C7 -/

/-- C7 counterexample: adding the paste source `"alpha\n\nbeta"` and building
chunks does NOT produce 2 chunks with ordinals 0 and 1 — both paragraphs fit
the 1600-byte budget, so greedy packing emits a single chunk. -/
theorem paste_alpha_beta_not_two_chunks :
    ¬ ((buildChunksForPasteText "alpha\n\nbeta").length = 2 ∧
       (buildChunksForPasteText "alpha\n\nbeta").map (fun d => d.ordinal) = [0, 1]) := by
  decide

/-- C7 (amended): adding a paste source with text `"alpha\n\nbeta"` and
building chunks produces exactly one chunk, with ordinal 0, whose text packs
both paragraphs. -/
theorem paste_alpha_beta_single_packed_chunk :
    buildChunksForPasteText "alpha\n\nbeta" =
      [⟨0, "alpha\n\nbeta", 11, ⟨"paragraph", none, none⟩⟩] := by
  decide

/-! ### C10 -/

set_option maxRecDepth 4000 in
/-- C10: `snippet_first_chars` is NOT total: on a trimmed chunk text of 279
ASCII bytes followed by the two-byte character `'é'`, byte offset 280 falls
inside the multi-byte character and the byte-slice `t[..280]` panics
(modelled as `none`); on short texts it returns the trimmed text unchanged. -/
theorem snippet_first_chars_panics_on_multibyte_boundary :
    snippet_first_chars ⟨List.replicate 279 'a' ++ ['é']⟩ 280 = none ∧
    snippet_first_chars "short text" 280 = some "short text" := by
  constructor
  · decide
  · decide

/-! ### C5 -/

lemma get_chunk_ok_iff (store : ChunkStore) (id : String) (c : EvidenceChunkM) :
    get_chunk store id = .ok c ↔ store id = some c := by
  unfold get_chunk
  cases h : store id <;> simp_all

lemma validateCitationsLoop_ok_iff (store : ChunkStore) (cits : List CitationM) :
    validateCitationsLoop store cits = .ok () ↔
      ∀ c ∈ cits, ∃ ch, store c.chunk_id = some ch ∧
        c.locator = (citation_for_chunk ch).locator := by
  induction cits with
  | nil => simp [validateCitationsLoop]
  | cons c rest ih =>
    simp only [validateCitationsLoop]
    cases hc : store c.chunk_id with
    | none =>
      simp only [get_chunk, hc]
      constructor
      · intro h; exact absurd h (by simp)
      · intro h
        obtain ⟨ch, hch, -⟩ := h c (List.mem_cons_self c rest)
        rw [hc] at hch
        exact absurd hch (by simp)
    | some ch =>
      simp only [get_chunk, hc]
      by_cases hloc : (citation_for_chunk ch).locator = c.locator
      · rw [if_neg (by simpa using hloc)]
        rw [ih]
        constructor
        · intro h
          intro c' hc'
          rcases List.mem_cons.mp hc' with rfl | hmem
          · exact ⟨ch, hc, hloc.symm⟩
          · exact h c' hmem
        · intro h c' hmem
          exact h c' (List.mem_cons_of_mem c hmem)
      · rw [if_pos (by simpa using hloc)]
        constructor
        · intro h; exact absurd h (by simp)
        · intro h
          obtain ⟨ch', hch', hl⟩ := h c (List.mem_cons_self c rest)
          rw [hc] at hch'
          obtain rfl : ch = ch' := by injection hch'
          exact absurd hl.symm hloc

lemma validateCitationsLoop_invalid (store : ChunkStore) (cits : List CitationM)
    (hsome : ∀ c ∈ cits, ∃ ch, store c.chunk_id = some ch)
    (hbad : ∃ c ∈ cits, ∀ ch, store c.chunk_id = some ch →
      c.locator ≠ (citation_for_chunk ch).locator) :
    ∃ e, validateCitationsLoop store cits = .error e ∧ e.code = "AI_CITATION_INVALID" := by
  induction cits with
  | nil => simp at hbad
  | cons c rest ih =>
    obtain ⟨ch, hch⟩ := hsome c (List.mem_cons_self c rest)
    simp only [validateCitationsLoop, get_chunk, hch]
    by_cases hloc : (citation_for_chunk ch).locator = c.locator
    · rw [if_neg (by simpa using hloc)]
      have hbad' : ∃ c' ∈ rest, ∀ ch', store c'.chunk_id = some ch' →
          c'.locator ≠ (citation_for_chunk ch').locator := by
        obtain ⟨c', hc', hne⟩ := hbad
        rcases List.mem_cons.mp hc' with rfl | hmem
        · exact absurd hloc.symm (hne ch hch)
        · exact ⟨c', hmem, hne⟩
      exact ih (fun c' h => hsome c' (List.mem_cons_of_mem c h)) hbad'
    · rw [if_pos (by simpa using hloc)]
      exact ⟨_, rfl, rfl⟩

lemma validateCitationsLoop_notfound (store : ChunkStore) (cits : List CitationM)
    (hmissing : ∃ c ∈ cits, store c.chunk_id = none)
    (hmatch : ∀ c ∈ cits, ∀ ch, store c.chunk_id = some ch →
      c.locator = (citation_for_chunk ch).locator) :
    ∃ e, validateCitationsLoop store cits = .error e ∧ e.code = "AI_EVIDENCE_NOT_FOUND" := by
  induction cits with
  | nil => simp at hmissing
  | cons c rest ih =>
    cases hc : store c.chunk_id with
    | none =>
      simp only [validateCitationsLoop, get_chunk, hc]
      exact ⟨_, rfl, rfl⟩
    | some ch =>
      have hloc := hmatch c (List.mem_cons_self c rest) ch hc
      simp only [validateCitationsLoop, get_chunk, hc]
      rw [if_neg (by simp [hloc])]
      have hmissing' : ∃ c' ∈ rest, store c'.chunk_id = none := by
        obtain ⟨c', hc', hn⟩ := hmissing
        rcases List.mem_cons.mp hc' with rfl | hmem
        · rw [hc] at hn; exact absurd hn (by simp)
        · exact ⟨c', hmem, hn⟩
      exact ih hmissing' (fun c' h => hmatch c' (List.mem_cons_of_mem c h))

/-- C5: `validate_citations` succeeds iff the list is non-empty and every
citation's locator equals the locator re-derived from the currently stored
chunk; an empty list fails `AI_CITATION_REQUIRED`; a locator mismatch (all
cited chunks present) fails `AI_CITATION_INVALID`; a missing cited chunk
(all locators of present chunks matching) fails `AI_EVIDENCE_NOT_FOUND`. -/
theorem validate_citations_exact_locator_match (store : ChunkStore) (citations : List CitationM) :
    (validate_citations store citations = .ok () ↔
      citations ≠ [] ∧ ∀ c ∈ citations, ∃ ch, store c.chunk_id = some ch ∧
        c.locator = (citation_for_chunk ch).locator)
    ∧ (citations = [] →
        validate_citations store citations =
          .error (AppErr.new "AI_CITATION_REQUIRED" "At least one citation is required"))
    ∧ ((∀ c ∈ citations, ∃ ch, store c.chunk_id = some ch) →
       (∃ c ∈ citations, ∀ ch, store c.chunk_id = some ch →
          c.locator ≠ (citation_for_chunk ch).locator) →
       ∃ e, validate_citations store citations = .error e ∧ e.code = "AI_CITATION_INVALID")
    ∧ ((∃ c ∈ citations, store c.chunk_id = none) →
       (∀ c ∈ citations, ∀ ch, store c.chunk_id = some ch →
          c.locator = (citation_for_chunk ch).locator) →
       ∃ e, validate_citations store citations = .error e ∧ e.code = "AI_EVIDENCE_NOT_FOUND") := by
  refine ⟨?_, ?_, ?_, ?_⟩
  · unfold validate_citations
    by_cases h : citations = []
    · subst h; simp
    · rw [if_neg h, validateCitationsLoop_ok_iff]
      simp [h]
  · intro h; subst h; simp [validate_citations]
  · intro hsome hbad
    have hne : citations ≠ [] := by
      rintro rfl; simp at hbad
    unfold validate_citations
    rw [if_neg hne]
    exact validateCitationsLoop_invalid store citations hsome hbad
  · intro hmissing hmatch
    have hne : citations ≠ [] := by
      rintro rfl; simp at hmissing
    unfold validate_citations
    rw [if_neg hne]
    exact validateCitationsLoop_notfound store citations hmissing hmatch

/-- C5 witness. -/
theorem validate_citations_exact_locator_match_witness :
    (validate_citations (fun id => if id = "A" then
        some ⟨"A", "S", 0, "t", "h", 1, ⟨"paragraph", none, none⟩⟩ else none)
      [⟨"A", ⟨"S", 0, "h", none⟩⟩] = .ok ()) ∧
    (validate_citations (fun id => if id = "A" then
        some ⟨"A", "S", 0, "t", "h", 1, ⟨"paragraph", none, none⟩⟩ else none)
      ([] : List CitationM) =
      .error (AppErr.new "AI_CITATION_REQUIRED" "At least one citation is required")) ∧
    (∃ e, validate_citations (fun id => if id = "A" then
        some ⟨"A", "S", 0, "t", "h", 1, ⟨"paragraph", none, none⟩⟩ else none)
      [⟨"A", ⟨"S", 0, "WRONG", none⟩⟩] = .error e ∧ e.code = "AI_CITATION_INVALID") ∧
    (∃ e, validate_citations (fun id => if id = "A" then
        some ⟨"A", "S", 0, "t", "h", 1, ⟨"paragraph", none, none⟩⟩ else none)
      [⟨"B", ⟨"S", 0, "h", none⟩⟩] = .error e ∧ e.code = "AI_EVIDENCE_NOT_FOUND") := by
  refine ⟨?_, ?_, ?_, ?_⟩
  · refine (validate_citations_exact_locator_match _ _).1.mpr ⟨by decide, ?_⟩
    intro c hc
    rw [List.mem_singleton] at hc
    subst hc
    exact ⟨_, rfl, by decide⟩
  · exact (validate_citations_exact_locator_match _ _).2.1 rfl
  · refine (validate_citations_exact_locator_match _ _).2.2.1 ?_ ?_
    · intro c hc
      rw [List.mem_singleton] at hc
      subst hc
      exact ⟨_, rfl⟩
    · refine ⟨_, List.mem_singleton_self _, ?_⟩
      intro ch h
      have h' : some (⟨"A", "S", 0, "t", "h", 1, ⟨"paragraph", none, none⟩⟩ : EvidenceChunkM) =
          some ch := h
      obtain rfl : (⟨"A", "S", 0, "t", "h", 1, ⟨"paragraph", none, none⟩⟩ : EvidenceChunkM) = ch :=
        by injection h'
      decide
  · refine (validate_citations_exact_locator_match _ _).2.2.2 ⟨_, List.mem_singleton_self _, rfl⟩ ?_
    intro c hc ch h
    rw [List.mem_singleton] at hc
    subst hc
    exact Option.noConfusion h

/-! ### C2 -/

lemma missingCitationLines_eq_nil_iff (md : String) :
    missingCitationLines md = [] ↔
      ∀ line ∈ rustLines md, isBulletLine line = true → lineHasMarker line = true := by
  unfold missingCitationLines
  rw [List.filterMap_eq_nil_iff]
  constructor
  · intro h line hline hb
    obtain ⟨i, hi, rfl⟩ := List.getElem_of_mem hline
    have hmem : (i, (rustLines md)[i]) ∈ (rustLines md).enum :=
      List.mk_mem_enum_iff_getElem?.mpr (List.getElem?_eq_getElem hi)
    have hnone := h _ hmem
    by_cases hm : lineHasMarker (rustLines md)[i]
    · exact hm
    · rw [if_pos (by simp [hb, hm])] at hnone
      exact absurd hnone (by simp)
  · intro h x hx
    obtain ⟨i, line⟩ := x
    rw [List.mk_mem_enum_iff_getElem?] at hx
    have hline : line ∈ rustLines md := List.getElem?_mem hx
    by_cases hb : isBulletLine line && !lineHasMarker line
    · exfalso
      simp only [Bool.and_eq_true, Bool.not_eq_true'] at hb
      exact absurd (h line hline hb.1) (by simp [hb.2])
    · rw [if_neg hb]

lemma mem_missingCitationLines (md : String) (n : Nat) :
    n ∈ missingCitationLines md ↔
      1 ≤ n ∧ ∃ line, (rustLines md)[n - 1]? = some line ∧
        isBulletLine line = true ∧ lineHasMarker line = false := by
  unfold missingCitationLines
  rw [List.mem_filterMap]
  constructor
  · rintro ⟨⟨i, line⟩, hmem, hf⟩
    rw [List.mk_mem_enum_iff_getElem?] at hmem
    by_cases hb : isBulletLine line && !lineHasMarker line
    · rw [if_pos hb] at hf
      obtain rfl : i + 1 = n := by injection hf
      simp only [Bool.and_eq_true, Bool.not_eq_true'] at hb
      exact ⟨by omega, line, by simpa using hmem, hb.1, hb.2⟩
    · rw [if_neg hb] at hf
      exact absurd hf (by simp)
  · rintro ⟨h1, line, hget, hb, hm⟩
    refine ⟨(n - 1, line), List.mk_mem_enum_iff_getElem?.mpr hget, ?_⟩
    rw [if_pos (by simp [hb, hm])]
    congr 1
    omega

lemma missingCitationParagraphs_eq_nil_iff (md : String) :
    missingCitationParagraphs md = [] ↔
      ∀ p ∈ draftParagraphs md, rustTrim p ≠ "" → rustContains (rustTrim p) "[[chunk:" = true := by
  unfold missingCitationParagraphs
  rw [List.filterMap_eq_nil_iff]
  constructor
  · intro h p hp hne
    obtain ⟨i, hi, rfl⟩ := List.getElem_of_mem hp
    have hmem : (i, (draftParagraphs md)[i]) ∈ (draftParagraphs md).enum :=
      List.mk_mem_enum_iff_getElem?.mpr (List.getElem?_eq_getElem hi)
    have hnone := h _ hmem
    simp only [if_neg hne] at hnone
    by_cases hm : rustContains (rustTrim (draftParagraphs md)[i]) "[[chunk:"
    · exact hm
    · rw [if_pos (by simp [hm])] at hnone
      exact absurd hnone (by simp)
  · intro h x hx
    obtain ⟨i, p⟩ := x
    rw [List.mk_mem_enum_iff_getElem?] at hx
    have hp : p ∈ draftParagraphs md := List.getElem?_mem hx
    by_cases hne : rustTrim p = ""
    · simp [hne]
    · simp only [if_neg hne]
      rw [if_neg (by simp [h p hp hne])]

lemma mem_missingCitationParagraphs (md : String) (n : Nat) :
    n ∈ missingCitationParagraphs md ↔
      1 ≤ n ∧ ∃ p, (draftParagraphs md)[n - 1]? = some p ∧
        rustTrim p ≠ "" ∧ rustContains (rustTrim p) "[[chunk:" = false := by
  unfold missingCitationParagraphs
  rw [List.mem_filterMap]
  constructor
  · rintro ⟨⟨i, p⟩, hmem, hf⟩
    rw [List.mk_mem_enum_iff_getElem?] at hmem
    by_cases hne : rustTrim p = ""
    · rw [if_pos hne] at hf
      exact absurd hf (by simp)
    · rw [if_neg hne] at hf
      by_cases hm : rustContains (rustTrim p) "[[chunk:"
      · rw [if_neg (by simp [hm])] at hf
        exact absurd hf (by simp)
      · rw [if_pos (by simp [hm])] at hf
        obtain rfl : i + 1 = n := by injection hf
        exact ⟨by omega, p, by simpa using hmem, hne, by simp [hm]⟩
  · rintro ⟨h1, p, hget, hne, hm⟩
    refine ⟨(n - 1, p), List.mk_mem_enum_iff_getElem?.mpr hget, ?_⟩
    rw [if_neg hne, if_pos (by simp [hm])]
    congr 1
    omega

lemma validate_section_list_eq (sid : SectionId)
    (hsid : sid = SectionId.incidentHighlightsTopN ∨ sid = SectionId.themeAnalysis ∨
      sid = SectionId.actionPlanNextQuarter) (md : String) :
    validate_section_citations sid md =
      match enforce_citations md with
      | .error e => .error e
      | .ok () => validate_each_list_item_has_citation md := by
  rcases hsid with rfl | rfl | rfl <;> rfl

lemma validate_list_section_cases (sid : SectionId)
    (hsid : sid = SectionId.incidentHighlightsTopN ∨ sid = SectionId.themeAnalysis ∨
      sid = SectionId.actionPlanNextQuarter) (md : String) :
    validate_section_citations sid md =
      if rustContains md "[[chunk:" = true then
        (if missingCitationLines md = [] then .ok ()
         else .error ((AppErr.new "AI_CITATION_REQUIRED"
           "Each list item must include at least one citation marker").with_details
           ("missing_citation_lines=" ++ fmtNatList (missingCitationLines md))))
      else .error (AppErr.new "AI_CITATION_REQUIRED"
        "AI output must include evidence chunk citations") := by
  rw [validate_section_list_eq sid hsid]
  unfold enforce_citations validate_each_list_item_has_citation
  by_cases hc : rustContains md "[[chunk:" <;> simp [hc]

lemma validate_narrative_section_cases (md : String) :
    validate_section_citations SectionId.quarterNarrativeRecap md =
      if rustContains md "[[chunk:" = true then
        (if missingCitationParagraphs md = [] then .ok ()
         else .error ((AppErr.new "AI_CITATION_REQUIRED"
           "Each paragraph must include at least one citation marker").with_details
           ("missing_citation_paragraphs=" ++ fmtNatList (missingCitationParagraphs md))))
      else .error (AppErr.new "AI_CITATION_REQUIRED"
        "AI output must include evidence chunk citations") := by
  unfold validate_section_citations enforce_citations validate_each_paragraph_has_citation
  by_cases hc : rustContains md "[[chunk:" <;> simp [hc]

/-- C2 (amended): for the list-structured sections, citation-density
validation fails exactly when the output has no `[[chunk:` marker anywhere
(the baseline check) or some Markdown bullet line lacks a marker; every
failure carries the `AI_CITATION_REQUIRED` code, and when the baseline check
passes the failing bullet lines are reported by 1-based line number.  For
the narrative section the same holds with blank-line-separated paragraphs:
validation fails exactly when there is no marker anywhere or some non-empty
paragraph lacks a marker, and failing paragraph indices are reported. -/
theorem validate_section_citations_density (markdown : String) :
    (∀ sid, (sid = SectionId.incidentHighlightsTopN ∨ sid = SectionId.themeAnalysis ∨
        sid = SectionId.actionPlanNextQuarter) →
      (validate_section_citations sid markdown = .ok () ↔
        rustContains markdown "[[chunk:" = true ∧
        ∀ line ∈ rustLines markdown, isBulletLine line = true → lineHasMarker line = true)
      ∧ (∀ e, validate_section_citations sid markdown = .error e →
          e.code = "AI_CITATION_REQUIRED")
      ∧ (rustContains markdown "[[chunk:" = true → missingCitationLines markdown ≠ [] →
          validate_section_citations sid markdown =
            .error ((AppErr.new "AI_CITATION_REQUIRED"
              "Each list item must include at least one citation marker").with_details
              ("missing_citation_lines=" ++ fmtNatList (missingCitationLines markdown)))))
    ∧ ((validate_section_citations SectionId.quarterNarrativeRecap markdown = .ok () ↔
        rustContains markdown "[[chunk:" = true ∧
        ∀ p ∈ draftParagraphs markdown, rustTrim p ≠ "" →
          rustContains (rustTrim p) "[[chunk:" = true)
      ∧ (∀ e, validate_section_citations SectionId.quarterNarrativeRecap markdown = .error e →
          e.code = "AI_CITATION_REQUIRED")
      ∧ (rustContains markdown "[[chunk:" = true → missingCitationParagraphs markdown ≠ [] →
          validate_section_citations SectionId.quarterNarrativeRecap markdown =
            .error ((AppErr.new "AI_CITATION_REQUIRED"
              "Each paragraph must include at least one citation marker").with_details
              ("missing_citation_paragraphs=" ++
                fmtNatList (missingCitationParagraphs markdown)))))
    ∧ (∀ n, n ∈ missingCitationLines markdown ↔
        1 ≤ n ∧ ∃ line, (rustLines markdown)[n - 1]? = some line ∧
          isBulletLine line = true ∧ lineHasMarker line = false)
    ∧ (∀ n, n ∈ missingCitationParagraphs markdown ↔
        1 ≤ n ∧ ∃ p, (draftParagraphs markdown)[n - 1]? = some p ∧
          rustTrim p ≠ "" ∧ rustContains (rustTrim p) "[[chunk:" = false) := by
  refine ⟨?_, ⟨?_, ?_, ?_⟩, mem_missingCitationLines markdown,
    mem_missingCitationParagraphs markdown⟩
  · intro sid hsid
    rw [validate_list_section_cases sid hsid markdown]
    by_cases hc : rustContains markdown "[[chunk:"
    · rw [if_pos hc]
      by_cases hmiss : missingCitationLines markdown = []
      · rw [if_pos hmiss]
        refine ⟨?_, ?_, ?_⟩
        · exact ⟨fun _ => ⟨hc, (missingCitationLines_eq_nil_iff markdown).mp hmiss⟩,
            fun _ => rfl⟩
        · intro e he; exact absurd he (by simp)
        · intro _ h; exact absurd hmiss h
      · rw [if_neg hmiss]
        refine ⟨?_, ?_, ?_⟩
        · constructor
          · intro h; exact absurd h (by simp)
          · intro h
            exact absurd ((missingCitationLines_eq_nil_iff markdown).mpr h.2) hmiss
        · intro e he
          obtain rfl : _ = e := by injection he
          rfl
        · intro _ _; rfl
    · rw [if_neg hc]
      refine ⟨?_, ?_, ?_⟩
      · constructor
        · intro h; exact absurd h (by simp)
        · intro h; exact absurd h.1 hc
      · intro e he
        obtain rfl : _ = e := by injection he
        rfl
      · intro h; exact absurd h hc
  · rw [validate_narrative_section_cases markdown]
    by_cases hc : rustContains markdown "[[chunk:"
    · rw [if_pos hc]
      by_cases hmiss : missingCitationParagraphs markdown = []
      · rw [if_pos hmiss]
        exact ⟨fun _ => ⟨hc, (missingCitationParagraphs_eq_nil_iff markdown).mp hmiss⟩,
          fun _ => rfl⟩
      · rw [if_neg hmiss]
        constructor
        · intro h; exact absurd h (by simp)
        · intro h
          exact absurd ((missingCitationParagraphs_eq_nil_iff markdown).mpr h.2) hmiss
    · rw [if_neg hc]
      constructor
      · intro h; exact absurd h (by simp)
      · intro h; exact absurd h.1 hc
  · rw [validate_narrative_section_cases markdown]
    intro e he
    by_cases hc : rustContains markdown "[[chunk:"
    · rw [if_pos hc] at he
      by_cases hmiss : missingCitationParagraphs markdown = []
      · rw [if_pos hmiss] at he; exact absurd he (by simp)
      · rw [if_neg hmiss] at he
        obtain rfl : _ = e := by injection he
        rfl
    · rw [if_neg hc] at he
      obtain rfl : _ = e := by injection he
      rfl
  · rw [validate_narrative_section_cases markdown]
    intro hc hmiss
    rw [if_pos hc, if_neg hmiss]

/-- C2 witness. -/
theorem validate_section_citations_density_witness :
    (validate_section_citations SectionId.themeAnalysis "- a [[chunk:x]]\n- b" =
      .error ((AppErr.new "AI_CITATION_REQUIRED"
        "Each list item must include at least one citation marker").with_details
        "missing_citation_lines=[2]")) ∧
    (validate_section_citations SectionId.quarterNarrativeRecap "x [[chunk:a]]" = .ok ()) := by
  constructor
  · have h := ((validate_section_citations_density "- a [[chunk:x]]\n- b").1
      SectionId.themeAnalysis (Or.inr (Or.inl rfl))).2.2 (by decide) (by decide)
    rw [h]
    decide
  · refine ((validate_section_citations_density "x [[chunk:a]]").2.1.1).mpr ⟨by decide, ?_⟩
    decide

/-- C2 counterexample: on the output `"hello"` (no bullet lines at all, so
no bullet line lacks a marker) the list-section validation nevertheless
fails, via the baseline any-marker check — so "fails exactly when some
bullet line lacks a marker" is false as stated. -/
theorem validate_section_citations_baseline_counterexample :
    (∀ line ∈ rustLines "hello", ¬ (isBulletLine line = true ∧ lineHasMarker line = false)) ∧
    ∃ e, validate_section_citations SectionId.themeAnalysis "hello" = .error e := by
  constructor
  · decide
  · exact ⟨_, rfl⟩

/-! ### C1 -/

lemma resolveCitations_total (store : ChunkStore) (ids : List String)
    (h : ∀ cid ∈ ids, (store cid).isSome) :
    ∃ cits, resolveCitations store ids = .ok cits ∧ cits.length = ids.length := by
  induction ids with
  | nil => exact ⟨[], rfl, rfl⟩
  | cons cid rest ih =>
    obtain ⟨ch, hch⟩ := Option.isSome_iff_exists.mp (h cid (List.mem_cons_self cid rest))
    obtain ⟨cits, hcits, hlen⟩ := ih (fun c hc => h c (List.mem_cons_of_mem cid hc))
    refine ⟨citation_for_chunk ch :: cits, ?_, by simp [hlen]⟩
    simp only [resolveCitations, get_chunk, hch, hcits]

lemma resolveCitations_ok_sound (store : ChunkStore)
    (hwf : ∀ id ch, store id = some ch → ch.chunk_id = id) (ids : List String)
    (cits : List CitationM) (h : resolveCitations store ids = .ok cits) :
    ∀ c ∈ cits, ∃ ch, store c.chunk_id = some ch ∧
      c.locator = (citation_for_chunk ch).locator := by
  induction ids generalizing cits with
  | nil =>
    obtain rfl : ([] : List CitationM) = cits := by
      simpa [resolveCitations] using h
    simp
  | cons cid rest ih =>
    simp only [resolveCitations] at h
    cases hch : store cid with
    | none => rw [get_chunk, hch] at h; exact absurd h (by simp)
    | some ch =>
      rw [get_chunk, hch] at h
      cases hrest : resolveCitations store rest with
      | error e => rw [hrest] at h; exact absurd h (by simp)
      | ok others =>
        rw [hrest] at h
        obtain rfl : citation_for_chunk ch :: others = cits := by
          simpa using h
        intro c hc
        rcases List.mem_cons.mp hc with rfl | hmem
        · refine ⟨ch, ?_, rfl⟩
          have : ch.chunk_id = cid := hwf cid ch hch
          rw [citation_for_chunk, this]
          exact hch
        · exact ih others hrest c hmem

lemma evidenceBlocksLoop_total (store : ChunkStore) (ids : List String)
    (h : ∀ cid ∈ ids, (store cid).isSome) :
    ∃ blocks, evidenceBlocksLoop store ids = .ok blocks := by
  induction ids with
  | nil => exact ⟨[], rfl⟩
  | cons cid rest ih =>
    obtain ⟨ch, hch⟩ := Option.isSome_iff_exists.mp (h cid (List.mem_cons_self cid rest))
    obtain ⟨blocks, hblocks⟩ := ih (fun c hc => h c (List.mem_cons_of_mem cid hc))
    exact ⟨("[[chunk:" ++ cid ++ "]] source_id=" ++ ch.source_id ++ " ordinal=" ++
        toString ch.ordinal ++ " text_sha256=" ++ ch.text_sha256 ++ "\n" ++ ch.text) :: blocks,
      by simp only [evidenceBlocksLoop, get_chunk, hch, hblocks]⟩

lemma checkAllowedLoop_ok (allowed l : List String) (h : ∀ cid ∈ l, cid ∈ allowed) :
    checkAllowedLoop allowed l = .ok () := by
  induction l with
  | nil => rfl
  | cons cid rest ih =>
    have hmem : allowed.contains cid = true := by
      simpa using h cid (List.mem_cons_self cid rest)
    simp only [checkAllowedLoop, hmem, if_pos]
    exact ih (fun c hc => h c (List.mem_cons_of_mem cid hc))

lemma checkAllowedLoop_invalid (allowed l : List String)
    (h : ∃ cid ∈ l, cid ∉ allowed) :
    ∃ e, checkAllowedLoop allowed l = .error e ∧ e.code = "AI_CITATION_INVALID" := by
  induction l with
  | nil => simp at h
  | cons cid rest ih =>
    by_cases hmem : allowed.contains cid
    · simp only [checkAllowedLoop, hmem, if_pos]
      refine ih ?_
      obtain ⟨c, hc, hnot⟩ := h
      rcases List.mem_cons.mp hc with rfl | hmem'
      · exact absurd (by simpa using hmem) hnot
      · exact ⟨c, hmem', hnot⟩
    · refine ⟨(AppErr.new "AI_CITATION_INVALID" "Draft cited an unapproved chunk_id").with_details
        ("chunk_id=" ++ cid), ?_, rfl⟩
      simp only [checkAllowedLoop]
      rw [if_neg hmem]

/-- C1 (amended): the draft pipeline enforces the citation contract in
stages.  An empty approved list fails `AI_CITATION_REQUIRED` (for every
generator, i.e. before the generator is consulted).  Once the approved
chunks resolve and the generator has produced `md`: if no id can be
extracted from `md` the call fails `AI_CITATION_REQUIRED`; if the
section-density validation passed and some extracted id is outside the
approved set, the call fails `AI_CITATION_INVALID` (a density failure is
reported as `AI_CITATION_REQUIRED` even when unapproved ids are also
present); and if `md` passes density validation and cites exactly one
approved id, the call succeeds with exactly one citation, for that chunk. -/
theorem draft_section_citation_pipeline (store : ChunkStore)
    (llm : String → String → Except AppErr String) (sha256_hex : String → String)
    (model : String) (req : AiDraftSectionRequest)
    (hwf : ∀ id ch, store id = some ch → ch.chunk_id = id) :
    (req.citation_chunk_ids = [] →
      draft_section_with_llm store llm sha256_hex model req =
        .error (AppErr.new "AI_CITATION_REQUIRED"
          "At least one citation chunk must be selected"))
    ∧ (∀ blocks md,
        req.citation_chunk_ids ≠ [] →
        (∀ cid ∈ req.citation_chunk_ids, (store cid).isSome) →
        build_evidence_blocks store req.citation_chunk_ids = .ok blocks →
        llm model (promptFor req.section_id req.quarter_label req.prompt blocks) = .ok md →
        ((extract_cited_chunk_ids md = [] →
            ∃ e, draft_section_with_llm store llm sha256_hex model req = .error e ∧
              e.code = "AI_CITATION_REQUIRED")
         ∧ (validate_section_citations req.section_id md = .ok () →
            (∃ cid ∈ extract_cited_chunk_ids md, cid ∉ req.citation_chunk_ids) →
            ∃ e, draft_section_with_llm store llm sha256_hex model req = .error e ∧
              e.code = "AI_CITATION_INVALID")
         ∧ (∀ cid, validate_section_citations req.section_id md = .ok () →
            extract_cited_chunk_ids md = [cid] → cid ∈ req.citation_chunk_ids →
            ∃ ch, store cid = some ch ∧
              draft_section_with_llm store llm sha256_hex model req =
                .ok ⟨req.section_id, md, [citation_for_chunk ch], model,
                  compute_model_params_hash sha256_hex model,
                  template_version_for req.section_id⟩))) := by
  constructor
  · intro h
    unfold draft_section_with_llm
    rw [if_pos h]
  · intro blocks md hids hres hblocks hmd
    obtain ⟨cits, hcits, hlen⟩ := resolveCitations_total store req.citation_chunk_ids hres
    have hcne : cits ≠ [] := by
      intro hnil
      rw [hnil] at hlen
      exact hids (List.eq_nil_of_length_eq_zero hlen.symm)
    have hval : validate_citations store cits = .ok () := by
      unfold validate_citations
      rw [if_neg hcne, validateCitationsLoop_ok_iff]
      exact resolveCitations_ok_sound store hwf req.citation_chunk_ids cits hcits
    refine ⟨?_, ?_, ?_⟩
    · intro hext
      cases hvs : validate_section_citations req.section_id md with
      | error e =>
        refine ⟨(AppErr.new "AI_CITATION_REQUIRED" "Draft missing citations").with_details
          e.display, ?_, rfl⟩
        unfold draft_section_with_llm
        rw [if_neg hids]
        simp only [hcits, hval, hblocks, hmd, hvs]
      | ok u =>
        cases u
        refine ⟨AppErr.new "AI_CITATION_REQUIRED" "Draft missing citations", ?_, rfl⟩
        unfold draft_section_with_llm
        rw [if_neg hids]
        simp only [hcits, hval, hblocks, hmd, hvs, hext]
        rw [if_pos trivial]
    · intro hvs hbad
      have hne : extract_cited_chunk_ids md ≠ [] := by
        rintro hnil
        rw [hnil] at hbad
        simp at hbad
      obtain ⟨e, he, hcode⟩ := checkAllowedLoop_invalid req.citation_chunk_ids
        (extract_cited_chunk_ids md) hbad
      refine ⟨e, ?_, hcode⟩
      unfold draft_section_with_llm
      rw [if_neg hids]
      simp only [hcits, hval, hblocks, hmd, hvs]
      rw [if_neg hne]
      simp only [he]
    · intro cid hvs hext hmem
      obtain ⟨ch, hch⟩ := Option.isSome_iff_exists.mp (hres cid hmem)
      refine ⟨ch, hch, ?_⟩
      have hout : outCitationsLoop store (dedupConsec (sortStrings [cid])) =
          .ok [citation_for_chunk ch] := by
        have hl : dedupConsec (sortStrings [cid]) = [cid] := rfl
        rw [hl]
        simp only [outCitationsLoop, get_chunk, hch]
      unfold draft_section_with_llm
      rw [if_neg hids]
      simp only [hcits, hval, hblocks, hmd, hvs, hext]
      rw [if_neg (by simp : ¬([cid] = ([] : List String)))]
      rw [checkAllowedLoop_ok req.citation_chunk_ids [cid]
        (by intro c hc; rw [List.mem_singleton] at hc; subst hc; exact hmem)]
      simp only [hout]

/-- C1 witness. -/
theorem draft_section_citation_pipeline_witness :
    (draft_section_with_llm
        (fun id => if id = "A" then
          some ⟨"A", "S", 0, "evidence text", "sha", 13, ⟨"paragraph", none, none⟩⟩ else none)
        (fun _ _ => .ok "Executive summary [[chunk:A]]") (fun _ => "h") "m"
        ⟨SectionId.execSummary, "Q1", "p", []⟩ =
      .error (AppErr.new "AI_CITATION_REQUIRED"
        "At least one citation chunk must be selected")) ∧
    (∃ ch, (fun id => if id = "A" then
          some ⟨"A", "S", 0, "evidence text", "sha", 13,
            (⟨"paragraph", none, none⟩ : EvidenceChunkMetaM)⟩ else none) "A" = some ch ∧
      draft_section_with_llm
        (fun id => if id = "A" then
          some ⟨"A", "S", 0, "evidence text", "sha", 13, ⟨"paragraph", none, none⟩⟩ else none)
        (fun _ _ => .ok "Executive summary [[chunk:A]]") (fun _ => "h") "m"
        ⟨SectionId.execSummary, "Q1", "p", ["A"]⟩ =
      .ok ⟨SectionId.execSummary, "Executive summary [[chunk:A]]",
        [citation_for_chunk ch], "m", compute_model_params_hash (fun _ => "h") "m",
        template_version_for SectionId.execSummary⟩) := by
  have hwf : ∀ id ch, (fun id => if id = "A" then
      some (⟨"A", "S", 0, "evidence text", "sha", 13,
        ⟨"paragraph", none, none⟩⟩ : EvidenceChunkM) else none) id = some ch →
      ch.chunk_id = id := by
    intro id ch h
    simp only at h
    by_cases hid : id = "A"
    · subst hid
      rw [if_pos rfl] at h
      obtain rfl : _ = ch := by injection h
      rfl
    · rw [if_neg hid] at h
      exact Option.noConfusion h
  constructor
  · exact (draft_section_citation_pipeline _ _ _ _ _ hwf).1 rfl
  · exact ((draft_section_citation_pipeline _ _ _ _ _ hwf).2
      "[[chunk:A]] source_id=S ordinal=0 text_sha256=sha\nevidence text"
      "Executive summary [[chunk:A]]" (by decide) (by decide) (by decide) rfl).2.2 "A"
      (by decide) (by decide) (by decide)

/-- C1 counterexample: with approved set `{A}` and a ThemeAnalysis output
whose first bullet lacks a marker while also citing the unapproved id
`zzz`, the call fails with `AI_CITATION_REQUIRED` (the density check fires
first), not `AI_CITATION_INVALID` as the claim states. -/
theorem draft_unapproved_id_after_density_failure :
    ("zzz" ∈ extract_cited_chunk_ids "- item\n\nsee [[chunk:zzz]]" ∧ "zzz" ∉ ["A"]) ∧
    ∃ e, draft_section_with_llm
        (fun id => if id = "A" then
          some ⟨"A", "S", 0, "evidence text", "sha", 13, ⟨"paragraph", none, none⟩⟩ else none)
        (fun _ _ => .ok "- item\n\nsee [[chunk:zzz]]") (fun _ => "h") "m"
        ⟨SectionId.themeAnalysis, "Q1", "p", ["A"]⟩ = .error e ∧
      e.code = "AI_CITATION_REQUIRED" ∧ e.code ≠ "AI_CITATION_INVALID" := by
  constructor
  · constructor
    · decide
    · decide
  · exact ⟨_, rfl, by decide, by decide⟩

/-! ### C9 -/

lemma dropWhile_idem (p : α → Bool) (l : List α) :
    (l.dropWhile p).dropWhile p = l.dropWhile p := by
  induction l with
  | nil => rfl
  | cons x xs ih =>
    by_cases hx : p x
    · rw [List.dropWhile_cons_of_pos hx]
      exact ih
    · rw [List.dropWhile_cons_of_neg hx, List.dropWhile_cons_of_neg hx]

lemma dropWhile_eq_self_of_prefix (p : α → Bool) (l m : List α)
    (hl : l.dropWhile p = l) (hm : m <+: l) : m.dropWhile p = m := by
  cases m with
  | nil => rfl
  | cons x m' =>
    obtain ⟨t, ht⟩ := hm
    rw [← ht, List.cons_append] at hl
    by_cases hx : p x
    · exfalso
      rw [List.dropWhile_cons_of_pos hx] at hl
      have hle : ((m' ++ t).dropWhile p).length ≤ (m' ++ t).length :=
        ((List.dropWhile_suffix p).sublist).length_le
      have h1 := congrArg List.length hl
      rw [List.length_cons] at h1
      omega
    · rw [List.dropWhile_cons_of_neg hx]

lemma trimStartList_trimEndList_trimStartList (l : List Char) :
    trimStartList (trimEndList (trimStartList l)) = trimEndList (trimStartList l) := by
  have hfix : (trimStartList l).dropWhile rustIsWhitespace = trimStartList l :=
    dropWhile_idem rustIsWhitespace l
  have hpre : trimEndList (trimStartList l) <+: trimStartList l := by
    unfold trimEndList
    have hsuf : List.dropWhile rustIsWhitespace (trimStartList l).reverse <:+
        (trimStartList l).reverse := List.dropWhile_suffix _
    have h2 := List.reverse_prefix.mpr hsuf
    simpa using h2
  exact dropWhile_eq_self_of_prefix rustIsWhitespace (trimStartList l)
    (trimEndList (trimStartList l)) hfix hpre

lemma trimEndList_idem (l : List Char) : trimEndList (trimEndList l) = trimEndList l := by
  unfold trimEndList
  rw [List.reverse_reverse]
  rw [dropWhile_idem]

lemma rustTrim_idem (s : String) : rustTrim (rustTrim s) = rustTrim s := by
  unfold rustTrim
  have h1 : (⟨trimEndList (trimStartList s.toList)⟩ : String).toList =
      trimEndList (trimStartList s.toList) := rfl
  rw [h1, trimStartList_trimEndList_trimStartList, trimEndList_idem]

lemma paragraphsOf_trimmed (text : String) : ∀ q ∈ paragraphsOf text, rustTrim q = q := by
  intro q hq
  simp only [paragraphsOf] at hq
  split at hq
  · rw [List.mem_singleton] at hq
    subst hq
    exact rustTrim_idem _
  · have hq' := List.mem_of_mem_filter hq
    obtain ⟨x, -, rfl⟩ := List.mem_map.mp hq'
    exact rustTrim_idem _

lemma joinSep_append_singleton (sep : String) (xs : List String) (p : String) (h : xs ≠ []) :
    joinSep sep (xs ++ [p]) = joinSep sep xs ++ sep ++ p := by
  induction xs with
  | nil => exact absurd rfl h
  | cons x xs ih =>
    cases xs with
    | nil => rfl
    | cons y ys =>
      have h2 : joinSep sep (y :: (ys ++ [p])) = joinSep sep (y :: ys) ++ sep ++ p :=
        ih (by simp)
      show x ++ sep ++ joinSep sep (y :: (ys ++ [p])) =
        x ++ sep ++ joinSep sep (y :: ys) ++ sep ++ p
      rw [h2]
      simp [String.append_assoc]

lemma toList_ne_nil_of_ne_empty (s : String) (h : s ≠ "") : s.toList ≠ [] := by
  intro hnil
  apply h
  cases s with
  | mk l =>
    have hd : l = [] := hnil
    rw [hd]

lemma ne_empty_of_rustLen_pos (s : String) (h : 0 < rustLen s) : s ≠ "" := by
  intro hempty
  subst hempty
  simp [rustLen, utf8LenList] at h

lemma append_ne_empty_left (a b : String) (ha : a ≠ "") : a ++ b ≠ "" := by
  intro h
  apply toList_ne_nil_of_ne_empty a ha
  have : (a ++ b).data = [] := by
    rw [h]
  rw [String.data_append] at this
  exact (List.append_eq_nil.mp this).1

lemma rustTrim_ne_empty_of_trimmed (s : String) (htrim : rustTrim s = s) (hne : s ≠ "") :
    rustTrim s ≠ "" := by
  rw [htrim]
  exact hne

/-- Inside the packing loop, a buffer already over budget is emitted whole
as the very next chunk. -/
lemma packParas_over_budget_buf_emitted (kind : String) (maxChars : Nat) :
    ∀ (rest : List String) (buf : String) (ord : Nat),
      rustLen buf > maxChars → rustTrim buf = buf →
      ∃ d ∈ packParas kind maxChars rest buf ord, d.text = buf := by
  intro rest
  cases rest with
  | nil =>
    intro buf ord hover htrim
    have hne : buf ≠ "" := ne_empty_of_rustLen_pos buf (by omega)
    simp only [packParas]
    rw [if_pos (by rw [htrim]; exact hne)]
    exact ⟨mkDraft kind ord buf, List.mem_singleton_self _, rfl⟩
  | cons p rest' =>
    intro buf ord hover htrim
    have hne : buf ≠ "" := ne_empty_of_rustLen_pos buf (by omega)
    simp only [packParas]
    rw [if_pos ⟨hne, by omega⟩]
    exact ⟨mkDraft kind ord buf, List.mem_cons_self _ _, rfl⟩

/-- Any paragraph over the byte budget is emitted whole as its own chunk. -/
lemma packParas_finds_oversized (kind : String) (maxChars : Nat) :
    ∀ (rest : List String) (buf : String) (ord : Nat),
      (∀ q ∈ rest, rustTrim q = q) →
      ∀ p ∈ rest, rustLen p > maxChars →
      ∃ d ∈ packParas kind maxChars rest buf ord, d.text = p := by
  intro rest
  induction rest with
  | nil => intro buf ord _ p hp; simp at hp
  | cons p' rest' ih =>
    intro buf ord hrest p hp hover
    have htrimp' : rustTrim p' = p' := hrest p' (List.mem_cons_self p' rest')
    rcases List.mem_cons.mp hp with rfl | hmem
    · -- the oversized paragraph is at the head
      simp only [packParas]
      by_cases hflush : buf ≠ "" ∧ rustLen buf + (if buf = "" then rustLen p else 2 + rustLen p) >
          maxChars
      · rw [if_pos hflush]
        obtain ⟨d, hd, hdt⟩ :=
          packParas_over_budget_buf_emitted kind maxChars rest' p (ord + 1) hover htrimp'
        exact ⟨d, List.mem_cons_of_mem _ hd, hdt⟩
      · rw [if_neg hflush]
        have hbuf : buf = "" := by
          by_contra hne
          apply hflush
          refine ⟨hne, ?_⟩
          rw [if_neg hne]
          omega
        rw [if_pos hbuf]
        exact packParas_over_budget_buf_emitted kind maxChars rest' p ord hover htrimp'
    · -- the oversized paragraph is further on
      have hrest' : ∀ q ∈ rest', rustTrim q = q :=
        fun q hq => hrest q (List.mem_cons_of_mem p' hq)
      simp only [packParas]
      by_cases hflush : buf ≠ "" ∧ rustLen buf + (if buf = "" then rustLen p' else 2 + rustLen p') >
          maxChars
      · rw [if_pos hflush]
        obtain ⟨d, hd, hdt⟩ := ih p' (ord + 1) hrest' p hmem hover
        exact ⟨d, List.mem_cons_of_mem _ hd, hdt⟩
      · rw [if_neg hflush]
        exact ih _ ord hrest' p hmem hover

/-- Every chunk the packing loop emits is the blank-line join of a
non-empty run of consecutive paragraphs of `segb ++ rest`, where `segb` is
the run already packed into the buffer. -/
lemma packParas_chunks_are_joined_runs (kind : String) (maxChars : Nat) :
    ∀ (rest : List String) (buf : String) (ord : Nat) (segb : List String),
      buf = joinSep "\n\n" segb →
      (buf = "" → segb = []) →
      ∀ d ∈ packParas kind maxChars rest buf ord,
        ∃ seg, seg ≠ [] ∧ List.IsInfix seg (segb ++ rest) ∧ d.text = joinSep "\n\n" seg := by
  intro rest
  induction rest with
  | nil =>
    intro buf ord segb hbuf hempty d hd
    simp only [packParas] at hd
    by_cases htrim : rustTrim buf ≠ ""
    · rw [if_pos htrim] at hd
      rw [List.mem_singleton] at hd
      subst hd
      refine ⟨segb, ?_, ⟨[], [], by simp⟩, hbuf⟩
      intro hsegb
      subst hsegb
      exact htrim (by rw [hbuf]; rfl)
    · rw [if_neg htrim] at hd
      simp at hd
  | cons p rest' ih =>
    intro buf ord segb hbuf hempty d hd
    simp only [packParas] at hd
    by_cases hflush : buf ≠ "" ∧
        rustLen buf + (if buf = "" then rustLen p else 2 + rustLen p) > maxChars
    · rw [if_pos hflush] at hd
      rcases List.mem_cons.mp hd with rfl | hd'
      · refine ⟨segb, ?_, ⟨[], p :: rest', by simp⟩, hbuf⟩
        intro hsegb
        subst hsegb
        exact hflush.1 hbuf
      · obtain ⟨seg, hne, hinf, htext⟩ := ih p (ord + 1) (if p = "" then [] else [p])
          (by split <;> simp_all [joinSep]) (by split <;> simp_all) d hd'
        refine ⟨seg, hne, ?_, htext⟩
        refine hinf.trans ?_
        by_cases hp : p = ""
        · rw [if_pos hp]
          exact ⟨segb ++ [p], [], by simp⟩
        · rw [if_neg hp]
          exact ⟨segb, [], by simp⟩
    · rw [if_neg hflush] at hd
      by_cases hb : buf = ""
      · rw [if_pos hb] at hd
        obtain ⟨seg, hne, hinf, htext⟩ := ih p ord (if p = "" then [] else [p])
          (by split <;> simp_all [joinSep]) (by split <;> simp_all) d hd
        refine ⟨seg, hne, ?_, htext⟩
        rw [hempty hb]
        refine hinf.trans ?_
        by_cases hp : p = ""
        · rw [if_pos hp]
          exact ⟨[p], [], by simp⟩
        · rw [if_neg hp]
          exact ⟨[], [], by simp⟩
      · rw [if_neg hb] at hd
        have hsegb : segb ≠ [] := fun h => hb (by simp [hbuf, h, joinSep])
        obtain ⟨seg, hne, hinf, htext⟩ := ih (buf ++ "\n\n" ++ p) ord (segb ++ [p])
          (by rw [joinSep_append_singleton "\n\n" segb p hsegb, ← hbuf])
          (fun h => absurd h (append_ne_empty_left (buf ++ "\n\n") p
            (append_ne_empty_left buf "\n\n" hb))) d hd
        refine ⟨seg, hne, ?_, htext⟩
        simpa using hinf

/-- C9: chunk boundaries coincide with paragraph boundaries — every chunk
text is the `"\n\n"`-join of one or more consecutive paragraphs of the
source, and a paragraph whose byte length exceeds the budget is never
split: it is emitted whole as one chunk (whose text therefore exceeds the
budget). -/
theorem chunk_boundaries_paragraph_aligned (text kind : String) (maxChars : Nat) :
    (∀ d ∈ chunk_text_by_paragraphs text kind maxChars,
      ∃ seg, seg ≠ [] ∧ List.IsInfix seg (paragraphsOf text) ∧
        d.text = joinSep "\n\n" seg)
    ∧ (∀ p ∈ paragraphsOf text, rustLen p > maxChars →
      ∃ d ∈ chunk_text_by_paragraphs text kind maxChars, d.text = p) := by
  constructor
  · intro d hd
    have := packParas_chunks_are_joined_runs kind maxChars (paragraphsOf text) "" 0 []
      rfl (fun _ => rfl) d hd
    simpa using this
  · intro p hp hover
    exact packParas_finds_oversized kind maxChars (paragraphsOf text) "" 0
      (paragraphsOf_trimmed text) p hp hover

/-! ### C3 and C4 -/

lemma mapGet_mapRetain (p : String → Bool) (m : List (String × α)) (k : String)
    (hk : p k = true) : mapGet (mapRetain p m) k = mapGet m k := by
  induction m with
  | nil => rfl
  | cons kv rest ih =>
    obtain ⟨k', v'⟩ := kv
    by_cases hkk : k' == k
    · have hk' : k' = k := by simpa using hkk
      subst hk'
      simp only [mapRetain, List.filter_cons, hk, if_pos]
      simp [mapGet, List.find?_cons, hkk]
    · by_cases hp : p k'
      · simp only [mapRetain, List.filter_cons, hp, if_pos]
        simp only [mapGet, List.find?_cons, hkk]
        simpa [mapGet, mapRetain] using ih
      · simp only [mapRetain, List.filter_cons, hp]
        simp only [Bool.false_eq_true, if_false]
        simp only [mapGet, List.find?_cons, hkk]
        simpa [mapGet, mapRetain] using ih

lemma mem_dedupConsec : ∀ (l : List String), ∀ x ∈ dedupConsec l, x ∈ l
  | [] => by simp [dedupConsec]
  | [a] => by simp [dedupConsec]
  | a :: b :: rest => by
    intro x hx
    simp only [dedupConsec] at hx
    by_cases hab : a = b
    · rw [if_pos hab] at hx
      exact List.mem_cons_of_mem _ (mem_dedupConsec (b :: rest) x hx)
    · rw [if_neg hab] at hx
      rcases List.mem_cons.mp hx with rfl | hx'
      · exact List.mem_cons_self _ _
      · exact List.mem_cons_of_mem _ (mem_dedupConsec (b :: rest) x hx')

lemma toEmbedIds_nil (summaries : List EvidenceChunkSummaryM)
    (vecs : List (String × List ℚ)) (hashes : List (String × String))
    (h : ∀ s ∈ summaries, mapGet hashes s.chunk_id = some s.text_sha256 ∧
      (mapGet vecs s.chunk_id).isSome) :
    toEmbedIds summaries vecs hashes = [] := by
  unfold toEmbedIds
  have hfm : summaries.filterMap (fun s =>
      if mapGet hashes s.chunk_id ≠ some s.text_sha256 ∨ mapGet vecs s.chunk_id = none then
        some s.chunk_id
      else none) = [] := by
    rw [List.filterMap_eq_nil_iff]
    intro s hs
    obtain ⟨h1, h2⟩ := h s hs
    rw [if_neg]
    push_neg
    exact ⟨h1, Option.isSome_iff_ne_none.mp h2⟩
  rw [hfm]
  rfl

lemma toEmbedIds_single (summaries : List EvidenceChunkSummaryM)
    (vecs : List (String × List ℚ)) (hashes : List (String × String)) (c : EvidenceChunkSummaryM)
    (hc : c ∈ summaries)
    (hnodup : (summaries.map (fun s => s.chunk_id)).Nodup)
    (hothers : ∀ s ∈ summaries, s.chunk_id ≠ c.chunk_id →
      mapGet hashes s.chunk_id = some s.text_sha256 ∧ (mapGet vecs s.chunk_id).isSome)
    (hmiss : mapGet hashes c.chunk_id ≠ some c.text_sha256 ∨ mapGet vecs c.chunk_id = none) :
    toEmbedIds summaries vecs hashes = [c.chunk_id] := by
  unfold toEmbedIds
  have hfm : summaries.filterMap (fun s =>
      if mapGet hashes s.chunk_id ≠ some s.text_sha256 ∨ mapGet vecs s.chunk_id = none then
        some s.chunk_id
      else none) = [c.chunk_id] := by
    induction summaries with
    | nil => simp at hc
    | cons s rest ih =>
      rcases List.mem_cons.mp hc with rfl | hmem
      · have hhead : (if mapGet hashes c.chunk_id ≠ some c.text_sha256 ∨
                mapGet vecs c.chunk_id = none then
              some c.chunk_id
            else none) = some c.chunk_id := if_pos hmiss
        rw [List.filterMap_cons]
        simp only [hhead]
        have hrestnil : rest.filterMap (fun s =>
            if mapGet hashes s.chunk_id ≠ some s.text_sha256 ∨ mapGet vecs s.chunk_id = none then
              some s.chunk_id
            else none) = [] := by
          rw [List.filterMap_eq_nil_iff]
          intro s' hs'
          have hne : s'.chunk_id ≠ c.chunk_id := by
            intro heq
            rw [List.map_cons, List.nodup_cons] at hnodup
            exact hnodup.1 (heq ▸ List.mem_map_of_mem (fun x => x.chunk_id) hs')
          obtain ⟨h1, h2⟩ := hothers s' (List.mem_cons_of_mem c hs') hne
          rw [if_neg]
          push_neg
          exact ⟨h1, Option.isSome_iff_ne_none.mp h2⟩
        rw [hrestnil]
      · have hsid : s.chunk_id ≠ c.chunk_id := by
          intro heq
          rw [List.map_cons, List.nodup_cons] at hnodup
          exact hnodup.1 (heq ▸ List.mem_map_of_mem (fun x => x.chunk_id) hmem)
        obtain ⟨h1, h2⟩ := hothers s (List.mem_cons_self s rest) hsid
        have hgood : ¬(mapGet hashes s.chunk_id ≠ some s.text_sha256 ∨
            mapGet vecs s.chunk_id = none) := by
          push_neg
          exact ⟨h1, Option.isSome_iff_ne_none.mp h2⟩
        have hhead : (if mapGet hashes s.chunk_id ≠ some s.text_sha256 ∨
                mapGet vecs s.chunk_id = none then
              some s.chunk_id
            else none) = none := if_neg hgood
        rw [List.filterMap_cons]
        simp only [hhead]
        exact ih hmem (by rw [List.map_cons, List.nodup_cons] at hnodup; exact hnodup.2)
          (fun s' hs' hne => hothers s' (List.mem_cons_of_mem s hs') hne)
  rw [hfm]
  rfl

lemma toEmbedIds_empty_caches (summaries : List EvidenceChunkSummaryM) :
    toEmbedIds summaries (mapRetain p []) (mapRetain q []) =
      dedupConsec (sortStrings (summaries.map (fun s => s.chunk_id))) := by
  unfold toEmbedIds
  congr 1
  congr 1
  induction summaries with
  | nil => rfl
  | cons s rest ih =>
    have hnone : mapGet (mapRetain p ([] : List (String × List ℚ))) s.chunk_id = none := rfl
    have hhead : (if mapGet (mapRetain q ([] : List (String × String))) s.chunk_id ≠
            some s.text_sha256 ∨
            mapGet (mapRetain p ([] : List (String × List ℚ))) s.chunk_id = none then
          some s.chunk_id
        else none) = some s.chunk_id := if_pos (Or.inr hnone)
    rw [List.filterMap_cons, List.map_cons]
    simp only [hhead]
    rw [ih]

lemma list_chunks_resolves (chunks : List EvidenceChunkM) (sid : Option String) :
    ∀ s ∈ list_chunks chunks sid, ∃ ch, storeOf chunks s.chunk_id = some ch := by
  intro s hs
  unfold list_chunks at hs
  have hs' := (sortByStable_perm summaryLeTriple _).mem_iff.mp hs
  obtain ⟨chunk, hchunk, rfl⟩ := List.mem_map.mp hs'
  have hchunk' : chunk ∈ chunks := by
    revert hchunk
    cases sid with
    | none => exact fun h => h
    | some s' => exact fun h => List.mem_of_mem_filter h
  have : (chunks.find? (fun c => c.chunk_id == (summaryOfChunk chunk).chunk_id)).isSome := by
    rw [List.find?_isSome]
    exact ⟨chunk, hchunk', by simp [summaryOfChunk]⟩
  exact Option.isSome_iff_exists.mp this

lemma embedLoop_all_ok (chunks : List EvidenceChunkM)
    (embed : String → String → Except AppErr (List ℚ)) (model : String) (d : Nat)
    (hembed : ∀ t, ∃ v, embed model t = .ok v ∧ v.length = d) :
    ∀ (l : List String) (dims0 : Option Nat) (vecs : List (String × List ℚ)),
      (∀ cid ∈ l, ∃ ch, storeOf chunks cid = some ch) →
      (dims0 = none ∨ dims0 = some d) →
      ∃ dims' vecs', embedLoop chunks embed model l dims0 vecs = (.ok (dims', vecs'), l) := by
  intro l
  induction l with
  | nil => intro dims0 vecs _ _; exact ⟨dims0, vecs, rfl⟩
  | cons cid rest ih =>
    intro dims0 vecs hres hdims
    obtain ⟨ch, hch⟩ := hres cid (List.mem_cons_self cid rest)
    obtain ⟨v, hv, hvlen⟩ := hembed ch.text
    rcases hdims with rfl | rfl
    · obtain ⟨dims', vecs', hrec⟩ := ih (some v.length) (mapInsert cid v vecs)
        (fun c hc => hres c (List.mem_cons_of_mem cid hc)) (Or.inr (by rw [hvlen]))
      refine ⟨dims', vecs', ?_⟩
      simp only [embedLoop, get_chunk, hch, hv, hrec]
    · obtain ⟨dims', vecs', hrec⟩ := ih (some d) (mapInsert cid v vecs)
        (fun c hc => hres c (List.mem_cons_of_mem cid hc)) (Or.inr rfl)
      refine ⟨dims', vecs', ?_⟩
      simp only [embedLoop, get_chunk, hch, hv]
      rw [if_neg (by rw [hvlen]; exact fun h => h rfl)]
      rw [hrec]

lemma sortStrings_pair (a b : String) (hle : strLe a b = true) :
    sortStrings [a, b] = [a, b] := by
  simp only [sortStrings, sortByStable, List.foldl, insertStable, hle, if_pos]

/-- C3: with a compatible persisted status (ready, same model, same
source_id scope) and no chunk's `text_sha256` changed, a build performs
zero embedder calls and succeeds; with exactly one changed (or missing)
chunk it performs exactly one embedder call, for that chunk; and when the
requested model or source_id scope differs from the current status the
cached maps are discarded and every chunk in scope is re-embedded. -/
theorem index_build_incremental_embedding (chunks : List EvidenceChunkM)
    (embed : String → String → Except AppErr (List ℚ)) (current : AiIndexStatusM)
    (vecs0 : List (String × List ℚ)) (hashes0 : List (String × String))
    (input : AiIndexBuildInputM) :
    (current.ready = true → current.model = some input.model →
     current.source_id = input.source_id →
     list_chunks chunks input.source_id ≠ [] →
     (∀ s ∈ list_chunks chunks input.source_id,
       mapGet hashes0 s.chunk_id = some s.text_sha256 ∧ (mapGet vecs0 s.chunk_id).isSome) →
     (build_with_embedder chunks embed current vecs0 hashes0 input).2.2 = [] ∧
     ∃ st, (build_with_embedder chunks embed current vecs0 hashes0 input).1 = .ok st)
    ∧ (∀ c ∈ list_chunks chunks input.source_id,
       current.ready = true → current.model = some input.model →
       current.source_id = input.source_id →
       ((list_chunks chunks input.source_id).map (fun s => s.chunk_id)).Nodup →
       (∀ s ∈ list_chunks chunks input.source_id, s.chunk_id ≠ c.chunk_id →
         mapGet hashes0 s.chunk_id = some s.text_sha256 ∧ (mapGet vecs0 s.chunk_id).isSome) →
       (mapGet hashes0 c.chunk_id ≠ some c.text_sha256 ∨ mapGet vecs0 c.chunk_id = none) →
       (build_with_embedder chunks embed current vecs0 hashes0 input).2.2 = [c.chunk_id])
    ∧ (∀ d : Nat, (∀ t, ∃ v, embed input.model t = .ok v ∧ v.length = d) →
       (current.model ≠ some input.model ∨ current.source_id ≠ input.source_id) →
       list_chunks chunks input.source_id ≠ [] →
       (build_with_embedder chunks embed current vecs0 hashes0 input).2.2 =
         dedupConsec (sortStrings
           ((list_chunks chunks input.source_id).map (fun s => s.chunk_id))) ∧
       ∃ st, (build_with_embedder chunks embed current vecs0 hashes0 input).1 = .ok st) := by
  refine ⟨?_, ?_, ?_⟩
  · intro hready hmodel hsid hne hcache
    have hcompat : (current.ready && current.model == some input.model &&
        current.source_id == input.source_id) = true := by
      simp [hready, hmodel, hsid]
    have hto : toEmbedIds (list_chunks chunks input.source_id)
        (mapRetain (fun k => (sortStrings ((list_chunks chunks input.source_id).map
          (fun c => c.chunk_id))).contains k) (if (current.ready &&
            current.model == some input.model &&
            current.source_id == input.source_id) = true then vecs0 else []))
        (mapRetain (fun k => (sortStrings ((list_chunks chunks input.source_id).map
          (fun c => c.chunk_id))).contains k) (if (current.ready &&
            current.model == some input.model &&
            current.source_id == input.source_id) = true then hashes0 else [])) = [] := by
      rw [if_pos hcompat, if_pos hcompat]
      apply toEmbedIds_nil
      intro s hs
      have hmem : (sortStrings ((list_chunks chunks input.source_id).map
          (fun c => c.chunk_id))).contains s.chunk_id = true := by
        apply List.elem_eq_true_of_mem
        exact (sortByStable_perm strLe _).mem_iff.mpr
          (List.mem_map_of_mem (fun c => c.chunk_id) hs)
      rw [mapGet_mapRetain _ _ _ hmem, mapGet_mapRetain _ _ _ hmem]
      exact hcache s hs
    unfold build_with_embedder
    rw [if_neg hne]
    simp only [hto]
    exact ⟨rfl, _, rfl⟩
  · intro c hc hready hmodel hsid hnodup hothers hmiss
    have hcompat : (current.ready && current.model == some input.model &&
        current.source_id == input.source_id) = true := by
      simp [hready, hmodel, hsid]
    have hne : list_chunks chunks input.source_id ≠ [] := by
      intro hnil
      rw [hnil] at hc
      simp at hc
    have hcontains : ∀ s ∈ list_chunks chunks input.source_id,
        (sortStrings ((list_chunks chunks input.source_id).map
          (fun c => c.chunk_id))).contains s.chunk_id = true := by
      intro s hs
      apply List.elem_eq_true_of_mem
      exact (sortByStable_perm strLe _).mem_iff.mpr
        (List.mem_map_of_mem (fun c => c.chunk_id) hs)
    have hto : toEmbedIds (list_chunks chunks input.source_id)
        (mapRetain (fun k => (sortStrings ((list_chunks chunks input.source_id).map
          (fun c => c.chunk_id))).contains k) (if (current.ready &&
            current.model == some input.model &&
            current.source_id == input.source_id) = true then vecs0 else []))
        (mapRetain (fun k => (sortStrings ((list_chunks chunks input.source_id).map
          (fun c => c.chunk_id))).contains k) (if (current.ready &&
            current.model == some input.model &&
            current.source_id == input.source_id) = true then hashes0 else [])) =
        [c.chunk_id] := by
      rw [if_pos hcompat, if_pos hcompat]
      apply toEmbedIds_single _ _ _ c hc hnodup
      · intro s hs hsne
        rw [mapGet_mapRetain _ _ _ (hcontains s hs), mapGet_mapRetain _ _ _ (hcontains s hs)]
        exact hothers s hs hsne
      · rw [mapGet_mapRetain _ _ _ (hcontains c hc), mapGet_mapRetain _ _ _ (hcontains c hc)]
        exact hmiss
    obtain ⟨ch, hch⟩ := list_chunks_resolves chunks input.source_id c hc
    unfold build_with_embedder
    rw [if_neg hne]
    simp only [hto]
    simp only [embedLoop, get_chunk, hch]
    cases hemb : embed input.model ch.text with
    | error e => rfl
    | ok v =>
      cases hdims0 : (if (current.ready && current.model == some input.model &&
          current.source_id == input.source_id) = true then current.dims else none) with
      | none => rfl
      | some dd =>
        by_cases hd : dd ≠ v.length
        · simp [hd]
        · simp [hd]
  · intro d hembed hdiff hne
    have hcompat : (current.ready && current.model == some input.model &&
        current.source_id == input.source_id) = false := by
      rcases hdiff with h | h
      · have : (current.model == some input.model) = false := by
          simpa using h
        simp [this]
      · have : (current.source_id == input.source_id) = false := by
          simpa using h
        simp [this]
    have hto : toEmbedIds (list_chunks chunks input.source_id)
        (mapRetain (fun k => (sortStrings ((list_chunks chunks input.source_id).map
          (fun c => c.chunk_id))).contains k) (if (current.ready &&
            current.model == some input.model &&
            current.source_id == input.source_id) = true then vecs0 else []))
        (mapRetain (fun k => (sortStrings ((list_chunks chunks input.source_id).map
          (fun c => c.chunk_id))).contains k) (if (current.ready &&
            current.model == some input.model &&
            current.source_id == input.source_id) = true then hashes0 else [])) =
        dedupConsec (sortStrings ((list_chunks chunks input.source_id).map
          (fun s => s.chunk_id))) := by
      rw [hcompat]
      simp only [Bool.false_eq_true, if_false]
      exact toEmbedIds_empty_caches _
    have hres : ∀ cid ∈ dedupConsec (sortStrings ((list_chunks chunks input.source_id).map
        (fun s => s.chunk_id))), ∃ ch, storeOf chunks cid = some ch := by
      intro cid hcid
      have h1 := mem_dedupConsec _ cid hcid
      have h2 := (sortByStable_perm strLe _).mem_iff.mp h1
      obtain ⟨s, hs, rfl⟩ := List.mem_map.mp h2
      exact list_chunks_resolves chunks input.source_id s hs
    have hdims0 : (if (current.ready && current.model == some input.model &&
        current.source_id == input.source_id) = true then current.dims else none) = none := by
      rw [hcompat]
      simp
    obtain ⟨dims', vecs', hloop⟩ := embedLoop_all_ok chunks embed input.model d hembed
      (dedupConsec (sortStrings ((list_chunks chunks input.source_id).map
        (fun s => s.chunk_id)))) none
      (mapRetain (fun k => (sortStrings ((list_chunks chunks input.source_id).map
        (fun c => c.chunk_id))).contains k) (if (current.ready &&
          current.model == some input.model &&
          current.source_id == input.source_id) = true then vecs0 else []))
      hres (Or.inl rfl)
    unfold build_with_embedder
    rw [if_neg hne]
    simp only [hto, hdims0]
    rw [hloop]
    exact ⟨rfl, _, rfl⟩

/-- C3 witness. -/
theorem index_build_incremental_embedding_witness :
    ((build_with_embedder
        [⟨"A", "S", 0, "ta", "hA", 2, ⟨"paragraph", none, none⟩⟩,
         ⟨"B", "S", 1, "tb", "hB", 2, ⟨"paragraph", none, none⟩⟩]
        (fun _ _ => .ok [1]) ⟨true, some "m", some 1, 2, 2, none, some "t0"⟩
        [("A", [3]), ("B", [4])] [("A", "hA"), ("B", "hB")] ⟨"m", none, "t1"⟩).2.2 = []) ∧
    ((build_with_embedder
        [⟨"A", "S", 0, "ta", "hA", 2, ⟨"paragraph", none, none⟩⟩,
         ⟨"B", "S", 1, "tb", "hB", 2, ⟨"paragraph", none, none⟩⟩]
        (fun _ _ => .ok [1]) ⟨true, some "m", some 1, 2, 2, none, some "t0"⟩
        [("A", [3]), ("B", [4])] [("A", "hOLD"), ("B", "hB")] ⟨"m", none, "t1"⟩).2.2 = ["A"]) ∧
    ((build_with_embedder
        [⟨"A", "S", 0, "ta", "hA", 2, ⟨"paragraph", none, none⟩⟩,
         ⟨"B", "S", 1, "tb", "hB", 2, ⟨"paragraph", none, none⟩⟩]
        (fun _ _ => .ok [1]) ⟨true, some "OTHER", some 7, 2, 2, none, some "t0"⟩
        [("A", [3]), ("B", [4])] [("A", "hA"), ("B", "hB")] ⟨"m", none, "t1"⟩).2.2 = ["A", "B"]) := by
  refine ⟨?_, ?_, ?_⟩
  · exact ((index_build_incremental_embedding _ _ _ _ _ _).1 rfl rfl rfl (by decide)
      (by decide)).1
  · exact (index_build_incremental_embedding _ _ _ _ _ _).2.1
      ⟨"A", "S", 0, "hA", 2, ⟨"paragraph", none, none⟩⟩ (by decide) rfl rfl rfl (by decide)
      (by decide) (by decide)
  · have h := ((index_build_incremental_embedding
      [⟨"A", "S", 0, "ta", "hA", 2, ⟨"paragraph", none, none⟩⟩,
       ⟨"B", "S", 1, "tb", "hB", 2, ⟨"paragraph", none, none⟩⟩]
      (fun _ _ => .ok [1]) ⟨true, some "OTHER", some 7, 2, 2, none, some "t0"⟩
      [("A", [3]), ("B", [4])] [("A", "hA"), ("B", "hB")] ⟨"m", none, "t1"⟩).2.2 1
      (fun t => ⟨[1], rfl, rfl⟩) (Or.inl (by decide)) (by decide)).1
    rw [h]
    decide

lemma embedLoop_seeded_mismatch (chunks : List EvidenceChunkM)
    (embed : String → String → Except AppErr (List ℚ)) (model : String) (d d1 : Nat)
    (c : String) (hd : d1 ≠ d) :
    ∀ (l : List String) (vecs : List (String × List ℚ)),
      c ∈ l →
      (∀ cid ∈ l, ∃ ch v, storeOf chunks cid = some ch ∧ embed model ch.text = .ok v ∧
        (cid ≠ c → v.length = d) ∧ (cid = c → v.length = d1)) →
      ∃ calls, embedLoop chunks embed model l (some d) vecs =
        (.error ((AppErr.new "AI_INDEX_BUILD_FAILED"
          "Embedding dimension mismatch across chunks").with_details
          ("expected=" ++ toString d ++ "; got=" ++ toString d1 ++ "; chunk_id=" ++ c)),
         calls) := by
  intro l
  induction l with
  | nil =>
    intro vecs hc _
    exact absurd hc (by simp)
  | cons cid rest ih =>
    intro vecs hc hall
    obtain ⟨ch, v, hch, hv, hvd, hvc⟩ := hall cid (List.mem_cons_self cid rest)
    by_cases hcc : cid = c
    · subst hcc
      have hlen : v.length = d1 := hvc rfl
      refine ⟨[cid], ?_⟩
      simp only [embedLoop, get_chunk, hch, hv]
      rw [if_pos (show d ≠ v.length from fun h => hd (hlen.symm.trans h.symm))]
      rw [hlen]
    · have hlen : v.length = d := hvd hcc
      have hcr : c ∈ rest := by
        rcases List.mem_cons.mp hc with h | h
        · exact absurd h.symm hcc
        · exact h
      obtain ⟨calls, hloop⟩ := ih (mapInsert cid v vecs) hcr
        (fun cid' h' => hall cid' (List.mem_cons_of_mem cid h'))
      refine ⟨cid :: calls, ?_⟩
      simp only [embedLoop, get_chunk, hch, hv]
      rw [if_neg (show ¬(d ≠ v.length) from fun h => h hlen.symm)]
      rw [hloop]

/-- C4 counterexample: a compatible incremental build seeds `dims` from the
persisted status, so the first observed embedding vector does not fix
`dims` — here the build embeds exactly one vector, of length 1, and that
very first vector already aborts with the dimension-mismatch error against
the persisted `dims = 2`, with no later vector of a different length ever
observed. -/
theorem index_build_seeded_dims_counterexample :
    build_with_embedder
        [⟨"A", "S", 0, "ta", "hA", 2, ⟨"paragraph", none, none⟩⟩,
         ⟨"B", "S", 1, "tb", "hB", 2, ⟨"paragraph", none, none⟩⟩]
        (fun _ _ => .ok [1]) ⟨true, some "m", some 2, 2, 2, none, some "t0"⟩
        [("A", [3, 4]), ("B", [5, 6])] [("A", "hOLD"), ("B", "hB")] ⟨"m", none, "t1"⟩ =
      (.error ((AppErr.new "AI_INDEX_BUILD_FAILED"
        "Embedding dimension mismatch across chunks").with_details
        "expected=2; got=1; chunk_id=A"), [], ["A"]) := by
  decide

set_option maxHeartbeats 2000000 in
/-- C4 (amended): during an index build the running `dims` starts from the
persisted status when the build is compatible (ready, same model, same
source_id scope), and starts unset otherwise, in which case the first
embedded vector's length fixes it; in either case, embedding a vector whose
length differs from the current `dims` aborts the build with an
`AI_INDEX_BUILD_FAILED` error naming the expected and observed lengths,
before any of the vectors, hashes, or status documents are written (the
write trace is empty, so the persisted index state is unchanged). -/
theorem index_build_dims_mismatch_aborts (chunks : List EvidenceChunkM)
    (embed : String → String → Except AppErr (List ℚ)) (current : AiIndexStatusM)
    (vecs0 : List (String × List ℚ)) (hashes0 : List (String × String))
    (input : AiIndexBuildInputM) (c : String) (d d1 : Nat) (hd : d1 ≠ d) :
    (current.ready = true → current.model = some input.model →
     current.source_id = input.source_id → current.dims = some d →
     c ∈ toEmbedIds (list_chunks chunks input.source_id)
        (mapRetain (fun k => (sortStrings ((list_chunks chunks input.source_id).map
          (fun c => c.chunk_id))).contains k) vecs0)
        (mapRetain (fun k => (sortStrings ((list_chunks chunks input.source_id).map
          (fun c => c.chunk_id))).contains k) hashes0) →
     (∀ cid ∈ toEmbedIds (list_chunks chunks input.source_id)
        (mapRetain (fun k => (sortStrings ((list_chunks chunks input.source_id).map
          (fun c => c.chunk_id))).contains k) vecs0)
        (mapRetain (fun k => (sortStrings ((list_chunks chunks input.source_id).map
          (fun c => c.chunk_id))).contains k) hashes0),
        ∃ ch v, storeOf chunks cid = some ch ∧ embed input.model ch.text = .ok v ∧
          (cid ≠ c → v.length = d) ∧ (cid = c → v.length = d1)) →
     ∃ calls, build_with_embedder chunks embed current vecs0 hashes0 input =
       (.error ((AppErr.new "AI_INDEX_BUILD_FAILED"
         "Embedding dimension mismatch across chunks").with_details
         ("expected=" ++ toString d ++ "; got=" ++ toString d1 ++ "; chunk_id=" ++ c)),
        [], calls))
    ∧
    (current.ready = false → ∀ cid0 rest,
     toEmbedIds (list_chunks chunks input.source_id)
        (mapRetain (fun k => (sortStrings ((list_chunks chunks input.source_id).map
          (fun c => c.chunk_id))).contains k) [])
        (mapRetain (fun k => (sortStrings ((list_chunks chunks input.source_id).map
          (fun c => c.chunk_id))).contains k) []) = cid0 :: rest →
     cid0 ≠ c → c ∈ rest →
     (∀ cid ∈ cid0 :: rest, ∃ ch v, storeOf chunks cid = some ch ∧
        embed input.model ch.text = .ok v ∧
        (cid ≠ c → v.length = d) ∧ (cid = c → v.length = d1)) →
     ∃ calls, build_with_embedder chunks embed current vecs0 hashes0 input =
       (.error ((AppErr.new "AI_INDEX_BUILD_FAILED"
         "Embedding dimension mismatch across chunks").with_details
         ("expected=" ++ toString d ++ "; got=" ++ toString d1 ++ "; chunk_id=" ++ c)),
        [], calls)) := by
  constructor
  · intro hready hmodel hsid hdims hmem hall
    have hne : list_chunks chunks input.source_id ≠ [] := by
      intro h0
      rw [h0] at hmem
      have hnil : toEmbedIds ([] : List EvidenceChunkSummaryM)
          (mapRetain (fun k => (sortStrings (List.map (fun c => c.chunk_id)
            ([] : List EvidenceChunkSummaryM))).contains k) vecs0)
          (mapRetain (fun k => (sortStrings (List.map (fun c => c.chunk_id)
            ([] : List EvidenceChunkSummaryM))).contains k) hashes0) = [] := rfl
      rw [hnil] at hmem
      exact absurd hmem (List.not_mem_nil c)
    have hcompat : (current.ready && current.model == some input.model &&
        current.source_id == input.source_id) = true := by
      simp [hready, hmodel, hsid]
    have hvecs : (if (current.ready && current.model == some input.model &&
        current.source_id == input.source_id) = true then vecs0 else []) = vecs0 :=
      if_pos hcompat
    have hhashes : (if (current.ready && current.model == some input.model &&
        current.source_id == input.source_id) = true then hashes0 else []) = hashes0 :=
      if_pos hcompat
    have hdims0 : (if (current.ready && current.model == some input.model &&
        current.source_id == input.source_id) = true then current.dims else none) = some d := by
      rw [if_pos hcompat, hdims]
    obtain ⟨calls, hloop⟩ := embedLoop_seeded_mismatch chunks embed input.model d d1 c hd _
      (mapRetain (fun k => (sortStrings ((list_chunks chunks input.source_id).map
        (fun c => c.chunk_id))).contains k) vecs0) hmem hall
    refine ⟨calls, ?_⟩
    unfold build_with_embedder
    rw [if_neg hne]
    simp only [hvecs, hhashes, hdims0]
    rw [hloop]
  · intro h8 cid0 rest hsplit hc0 hcr hall
    have hcompat : (current.ready && current.model == some input.model &&
        current.source_id == input.source_id) = false := by
      simp [h8]
    have hne : list_chunks chunks input.source_id ≠ [] := by
      intro h0
      rw [h0] at hsplit
      exact List.noConfusion (hsplit : ([] : List String) = cid0 :: rest)
    have hvecs : (if (current.ready && current.model == some input.model &&
        current.source_id == input.source_id) = true then vecs0 else []) =
        ([] : List (String × List ℚ)) := by
      rw [hcompat]
      simp
    have hhashes : (if (current.ready && current.model == some input.model &&
        current.source_id == input.source_id) = true then hashes0 else []) =
        ([] : List (String × String)) := by
      rw [hcompat]
      simp
    have hdims0 : (if (current.ready && current.model == some input.model &&
        current.source_id == input.source_id) = true then current.dims else none) = none := by
      rw [hcompat]
      simp
    obtain ⟨ch0, v0, hch0, hv0, hvd0, _⟩ := hall cid0 (List.mem_cons_self cid0 rest)
    have hlen0 : v0.length = d := hvd0 hc0
    obtain ⟨calls, hloop⟩ := embedLoop_seeded_mismatch chunks embed input.model d d1 c hd
      rest (mapInsert cid0 v0 (mapRetain (fun k =>
        (sortStrings ((list_chunks chunks input.source_id).map
          (fun c => c.chunk_id))).contains k) []))
      hcr (fun cid' h' => hall cid' (List.mem_cons_of_mem cid0 h'))
    refine ⟨cid0 :: calls, ?_⟩
    unfold build_with_embedder
    rw [if_neg hne]
    simp only [hvecs, hhashes, hdims0, hsplit]
    simp only [embedLoop, get_chunk, hch0, hv0, hlen0]
    rw [hloop]

set_option maxHeartbeats 2000000 in
/-- C4 witness. -/
theorem index_build_dims_mismatch_aborts_witness :
    (∃ calls, build_with_embedder
        [⟨"A", "S", 0, "ta", "hA", 2, ⟨"paragraph", none, none⟩⟩,
         ⟨"B", "S", 1, "tb", "hB", 2, ⟨"paragraph", none, none⟩⟩]
        (fun _ _ => .ok [1]) ⟨true, some "m", some 2, 2, 2, none, some "t0"⟩
        [("A", [3, 4]), ("B", [5, 6])] [("A", "hOLD"), ("B", "hB")] ⟨"m", none, "t1"⟩ =
      (.error ((AppErr.new "AI_INDEX_BUILD_FAILED"
        "Embedding dimension mismatch across chunks").with_details
        ("expected=" ++ toString 2 ++ "; got=" ++ toString 1 ++ "; chunk_id=" ++ "A")),
       [], calls)) ∧
    (∃ calls, build_with_embedder
        [⟨"A", "S", 0, "ta", "hA", 2, ⟨"paragraph", none, none⟩⟩,
         ⟨"B", "S", 1, "tb", "hB", 2, ⟨"paragraph", none, none⟩⟩]
        (fun _ t => if t = "ta" then .ok [1] else .ok [1, 2])
        ⟨false, none, none, 0, 0, none, none⟩ [] [] ⟨"m", none, "t0"⟩ =
      (.error ((AppErr.new "AI_INDEX_BUILD_FAILED"
        "Embedding dimension mismatch across chunks").with_details
        ("expected=" ++ toString 1 ++ "; got=" ++ toString 2 ++ "; chunk_id=" ++ "B")),
       [], calls)) := by
  constructor
  · exact (index_build_dims_mismatch_aborts
      [⟨"A", "S", 0, "ta", "hA", 2, ⟨"paragraph", none, none⟩⟩,
       ⟨"B", "S", 1, "tb", "hB", 2, ⟨"paragraph", none, none⟩⟩]
      (fun _ _ => .ok [1]) ⟨true, some "m", some 2, 2, 2, none, some "t0"⟩
      [("A", [3, 4]), ("B", [5, 6])] [("A", "hOLD"), ("B", "hB")] ⟨"m", none, "t1"⟩
      "A" 2 1 (by decide)).1 rfl rfl rfl rfl (by decide)
      (by
        intro cid hcid
        have hcid' : cid = "A" := by
          have hm : cid ∈ (["A"] : List String) := hcid
          simpa using hm
        subst hcid'
        exact ⟨⟨"A", "S", 0, "ta", "hA", 2, ⟨"paragraph", none, none⟩⟩, [1], by decide, rfl,
          fun hne => absurd rfl hne, fun _ => rfl⟩)
  · exact (index_build_dims_mismatch_aborts
      [⟨"A", "S", 0, "ta", "hA", 2, ⟨"paragraph", none, none⟩⟩,
       ⟨"B", "S", 1, "tb", "hB", 2, ⟨"paragraph", none, none⟩⟩]
      (fun _ t => if t = "ta" then .ok [1] else .ok [1, 2])
      ⟨false, none, none, 0, 0, none, none⟩ [] [] ⟨"m", none, "t0"⟩
      "B" 1 2 (by decide)).2 rfl "A" ["B"] (by decide) (by decide) (by decide)
      (by
        intro cid hcid
        rcases List.mem_cons.mp hcid with rfl | hcid'
        · exact ⟨⟨"A", "S", 0, "ta", "hA", 2, ⟨"paragraph", none, none⟩⟩, [1], by decide,
            rfl, fun _ => rfl, fun h => absurd h (by decide)⟩
        · have hcidB : cid = "B" := by simpa using hcid'
          subst hcidB
          exact ⟨⟨"B", "S", 1, "tb", "hB", 2, ⟨"paragraph", none, none⟩⟩, [1, 2], by decide,
            rfl, fun h => absurd rfl h, fun _ => rfl⟩)

/-- C9 witness. -/
theorem chunk_boundaries_paragraph_aligned_witness :
    (∃ d ∈ chunk_text_by_paragraphs "abcd" "paragraph" 2, d.text = "abcd") ∧
    (∃ seg, seg ≠ [] ∧ List.IsInfix seg (paragraphsOf "ab\n\ncd") ∧
      (mkDraft "paragraph" 0 "ab\n\ncd").text = joinSep "\n\n" seg) := by
  constructor
  · exact (chunk_boundaries_paragraph_aligned "abcd" "paragraph" 2).2 "abcd" (by decide)
      (by decide)
  · exact (chunk_boundaries_paragraph_aligned "ab\n\ncd" "paragraph" 1600).1
      (mkDraft "paragraph" 0 "ab\n\ncd") (by decide)

/-! ### C8 -/

lemma containsCL_iff (l : List Char) (c : Char) : l.contains c = true ↔ c ∈ l :=
  List.elem_iff

lemma isPrefixOfCL_iff : ∀ (p l : List Char), isPrefixOfCL p l = true ↔ ∃ t, l = p ++ t
  | [], l => by simp [isPrefixOfCL]
  | a :: as, [] => by
    simp only [isPrefixOfCL]
    constructor
    · intro h
      exact absurd h (by decide)
    · rintro ⟨t, ht⟩
      exact absurd ht (by simp)
  | a :: as, b :: bs => by
    simp only [isPrefixOfCL, Bool.and_eq_true, beq_iff_eq]
    constructor
    · rintro ⟨rfl, h⟩
      obtain ⟨t, rfl⟩ := (isPrefixOfCL_iff as bs).mp h
      exact ⟨t, rfl⟩
    · rintro ⟨t, ht⟩
      injection ht with h1 h2
      exact ⟨h1.symm, (isPrefixOfCL_iff as bs).mpr ⟨t, h2⟩⟩

lemma splitOnceColon_eq_some : ∀ (l h p : List Char), splitOnceColon l = some (h, p) →
    l = h ++ ':' :: p ∧ ':' ∉ h
  | [], h, p => by
    intro he
    exact Option.noConfusion he
  | c :: rest, h, p => by
    simp only [splitOnceColon]
    by_cases hc : c = ':'
    · subst hc
      rw [if_pos rfl]
      intro he
      rw [Option.some.injEq, Prod.mk.injEq] at he
      obtain ⟨h1, h2⟩ := he
      subst h1
      subst h2
      exact ⟨rfl, by simp⟩
    · rw [if_neg hc]
      intro he
      cases hsp : splitOnceColon rest with
      | none =>
        rw [hsp] at he
        exact Option.noConfusion he
      | some pr =>
        obtain ⟨h', p'⟩ := pr
        rw [hsp] at he
        simp only [Option.map_some', Option.some.injEq, Prod.mk.injEq] at he
        obtain ⟨h1, h2⟩ := he
        obtain ⟨hrest, hnotin⟩ := splitOnceColon_eq_some rest h' p' hsp
        constructor
        · rw [← h1, ← h2, List.cons_append, hrest]
        · rw [← h1]
          intro hmem
          rcases List.mem_cons.mp hmem with heq | hmem'
          · exact hc heq.symm
          · exact hnotin hmem'

lemma splitOnceColon_append (a q : List Char) (ha : ':' ∉ a) :
    splitOnceColon (a ++ ':' :: q) = some (a, q) := by
  induction a with
  | nil => simp [splitOnceColon]
  | cons c cs ih =>
    have hc : ¬(c = ':') := fun h => ha (List.mem_cons.mpr (Or.inl h.symm))
    rw [List.cons_append]
    simp only [splitOnceColon]
    rw [if_neg hc, ih (fun hm => ha (List.mem_cons_of_mem c hm))]
    rfl

lemma portPlusOk_iff (p : List Char) :
    portPlusOk p = true ↔ ∃ v, parseU16 p = some v ∧ v ≠ 0 := by
  simp only [portPlusOk, parseU16]
  by_cases h0 : stripPlusSign p = []
  · rw [if_pos h0, h0]
    simp
  · rw [if_neg h0]
    by_cases hdig : (stripPlusSign p).all (fun c => c.isDigit) = true
    · rw [if_pos hdig]
      by_cases hle : (stripPlusSign p).foldl
          (fun n c => n * 10 + (c.toNat - 48)) (0 : Nat) ≤ 65535
      · rw [if_pos hle]
        constructor
        · intro h
          have h4 := of_decide_eq_true (Bool.and_eq_true_iff.mp h).2
          exact ⟨_, rfl, by omega⟩
        · rintro ⟨v, hv, hvne⟩
          have hveq := Option.some.inj hv
          rw [Bool.and_eq_true_iff, Bool.and_eq_true_iff]
          exact ⟨⟨decide_eq_true h0, hdig⟩, decide_eq_true (by omega)⟩
      · rw [if_neg hle]
        constructor
        · intro h
          have h4 := of_decide_eq_true (Bool.and_eq_true_iff.mp h).2
          exact absurd h4.2 hle
        · rintro ⟨v, hv, _⟩
          exact Option.noConfusion hv
    · rw [if_neg hdig]
      constructor
      · intro h
        have h2 := (Bool.and_eq_true_iff.mp (Bool.and_eq_true_iff.mp h).1).2
        exact absurd h2 hdig
      · rintro ⟨v, hv, _⟩
        exact Option.noConfusion hv

lemma portPlusOk_chars (p : List Char) (h : portPlusOk p = true) :
    ∀ c ∈ p, c = '+' ∨ c.isDigit = true := by
  simp only [portPlusOk, Bool.and_eq_true] at h
  have hall := h.1.2
  intro c hc
  rcases p with _ | ⟨d, ds⟩
  · exact absurd hc (by simp)
  · by_cases hd : d = '+'
    · subst hd
      rcases List.mem_cons.mp hc with rfl | hmem
      · exact Or.inl rfl
      · right
        have hstrip : stripPlusSign ('+' :: ds) = ds := rfl
        rw [hstrip] at hall
        exact List.all_eq_true.mp hall c hmem
    · right
      have hstrip : stripPlusSign (d :: ds) = d :: ds := by
        simp [stripPlusSign, hd]
      rw [hstrip] at hall
      exact List.all_eq_true.mp hall c hc

lemma validate_rest_iff (t : List Char) :
    validate_rest t = true ↔
      (t == "127.0.0.1".toList ||
        (isPrefixOfCL "127.0.0.1:".toList t && portPlusOk (t.drop 10))) = true := by
  constructor
  · intro h
    unfold validate_rest at h
    by_cases hbad : (t.contains '/' || t.contains '?' || t.contains '#' ||
        t.contains '@') = true
    · rw [if_pos hbad] at h
      exact absurd h (by decide)
    · rw [if_neg hbad] at h
      cases hsp : splitOnceColon t with
      | none =>
        rw [hsp] at h
        replace h : (t == "127.0.0.1".toList) = true := h
        rw [Bool.or_eq_true_iff]
        exact Or.inl h
      | some hp =>
        obtain ⟨host, p⟩ := hp
        rw [hsp] at h
        replace h : (if host ≠ "127.0.0.1".toList then false
          else if p = [] then false
          else match parseU16 p with
            | some v => decide (v ≠ 0)
            | none => false) = true := h
        by_cases hh : host = "127.0.0.1".toList
        · rw [if_neg (fun hn => hn hh)] at h
          by_cases hpnil : p = []
          · rw [if_pos hpnil] at h
            exact absurd h (by decide)
          · rw [if_neg hpnil] at h
            cases hp16 : parseU16 p with
            | none =>
              rw [hp16] at h
              exact absurd h (by decide)
            | some v =>
              rw [hp16] at h
              have hv0 : v ≠ 0 := of_decide_eq_true h
              obtain ⟨ht, _⟩ := splitOnceColon_eq_some t host p hsp
              subst hh
              rw [Bool.or_eq_true_iff]
              right
              rw [Bool.and_eq_true_iff]
              constructor
              · apply (isPrefixOfCL_iff _ _).mpr
                refine ⟨p, ?_⟩
                rw [ht, List.append_cons]
                rfl
              · have hdrop : t.drop 10 = p := by
                  rw [ht, List.append_cons]
                  exact List.drop_left' (by decide)
                rw [hdrop]
                exact (portPlusOk_iff p).mpr ⟨v, hp16, hv0⟩
        · rw [if_pos hh] at h
          exact absurd h (by decide)
  · intro h
    rcases Bool.or_eq_true_iff.mp h with h1 | h2
    · have ht : t = "127.0.0.1".toList := by simpa using h1
      subst ht
      decide
    · obtain ⟨hpre, hport⟩ := Bool.and_eq_true_iff.mp h2
      obtain ⟨q, hq⟩ := (isPrefixOfCL_iff _ _).mp hpre
      subst hq
      have hdrop : ("127.0.0.1:".toList ++ q).drop 10 = q := List.drop_left' (by decide)
      rw [hdrop] at hport
      have hchars := portPlusOk_chars q hport
      unfold validate_rest
      have hno : ∀ (ch : Char), ch.isDigit = false → ch ≠ '+' → ch ∉ "127.0.0.1:".toList →
          (("127.0.0.1:".toList ++ q).contains ch) = false := by
        intro ch hd hp hm
        rw [← Bool.not_eq_true]
        intro hcon
        rcases List.mem_append.mp ((containsCL_iff _ _).mp hcon) with hin | hin
        · exact hm hin
        · rcases hchars ch hin with rfl | hdig
          · exact hp rfl
          · rw [hd] at hdig
            exact Bool.noConfusion hdig
      rw [hno '/' (by decide) (by decide) (by decide),
          hno '?' (by decide) (by decide) (by decide),
          hno '#' (by decide) (by decide) (by decide),
          hno '@' (by decide) (by decide) (by decide)]
      rw [if_neg (by decide)]
      have hsp : splitOnceColon ("127.0.0.1:".toList ++ q) =
          some ("127.0.0.1".toList, q) := by
        have heq : ("127.0.0.1:".toList ++ q) = "127.0.0.1".toList ++ ':' :: q := rfl
        rw [heq]
        exact splitOnceColon_append _ _ (by decide)
      rw [hsp]
      show (if "127.0.0.1".toList ≠ "127.0.0.1".toList then false
        else if q = [] then false
        else match parseU16 q with
          | some v => decide (v ≠ 0)
          | none => false) = true
      rw [if_neg (fun hn => hn rfl)]
      have hqne : q ≠ [] := by
        intro h0
        rw [h0] at hport
        exact absurd hport (by decide)
      rw [if_neg hqne]
      obtain ⟨v, hv, hvne⟩ := (portPlusOk_iff q).mp hport
      rw [hv]
      exact decide_eq_true hvne

lemma validate_base_url_chars (b : String) :
    validate_base_url b = amendedCore b.toList := by
  rw [Bool.eq_iff_iff]
  unfold validate_base_url amendedCore
  by_cases hpre : isPrefixOfCL "http://".toList b.toList = true
  · rw [if_pos hpre]
    obtain ⟨t, ht⟩ := (isPrefixOfCL_iff _ _).mp hpre
    rw [ht]
    have hd7 : ("http://".toList ++ t).drop 7 = t := List.drop_left' (by decide)
    have hd17 : ("http://".toList ++ t).drop 17 = t.drop 10 := by
      rw [show (17 : Nat) = 7 + 10 from rfl, ← List.drop_drop, hd7]
    have heq1 : (("http://".toList ++ t) == "http://127.0.0.1".toList) =
        (t == "127.0.0.1".toList) := by
      rw [Bool.eq_iff_iff]
      simp only [beq_iff_eq]
      have hlit : "http://127.0.0.1".toList = "http://".toList ++ "127.0.0.1".toList := by
        decide
      rw [hlit]
      exact List.append_right_inj _
    have heq2 : isPrefixOfCL "http://127.0.0.1:".toList ("http://".toList ++ t) =
        isPrefixOfCL "127.0.0.1:".toList t := by
      rw [Bool.eq_iff_iff]
      have hlit : "http://127.0.0.1:".toList = "http://".toList ++ "127.0.0.1:".toList := by
        decide
      constructor
      · intro h
        obtain ⟨s2, hs2⟩ := (isPrefixOfCL_iff _ _).mp h
        rw [hlit, List.append_assoc] at hs2
        exact (isPrefixOfCL_iff _ _).mpr ⟨s2, (List.append_right_inj _).mp hs2⟩
      · intro h
        obtain ⟨s2, hs2⟩ := (isPrefixOfCL_iff _ _).mp h
        refine (isPrefixOfCL_iff _ _).mpr ⟨s2, ?_⟩
        rw [hlit, List.append_assoc, hs2]
    rw [hd7, hd17, heq1, heq2]
    exact validate_rest_iff t
  · rw [if_neg hpre]
    constructor
    · intro h
      exact absurd h (by decide)
    · intro h
      exfalso
      rcases Bool.or_eq_true_iff.mp h with h1 | h2
      · have hbt : b.toList = "http://127.0.0.1".toList := by simpa using h1
        apply hpre
        rw [hbt]
        decide
      · have h3 := (Bool.and_eq_true_iff.mp h2).1
        obtain ⟨s2, hs2⟩ := (isPrefixOfCL_iff _ _).mp h3
        apply hpre
        apply (isPrefixOfCL_iff _ _).mpr
        refine ⟨"127.0.0.1:".toList ++ s2, ?_⟩
        rw [hs2]
        have hlit : "http://127.0.0.1:".toList = "http://".toList ++ "127.0.0.1:".toList := by
          decide
        rw [hlit, List.append_assoc]

/-- C8 counterexample: the Rust `u16` parser accepts a leading `'+'` sign,
so `OllamaClient::new` accepts `http://127.0.0.1:+80`, whose port is not
numeric in the claim's sense. -/
theorem ollama_plus_port_counterexample :
    ollama_client_new "http://127.0.0.1:+80" = .ok "http://127.0.0.1:+80" ∧
    claim_accepts_base_url "http://127.0.0.1:+80" = false := by
  constructor
  · decide
  · decide

/-- C8 (amended): `OllamaClient::new(base_url)` succeeds — returning the
trimmed, trailing-slash-stripped URL — if and only if that stripped URL is
exactly `http://127.0.0.1`, optionally followed by `':'` and a port written
as an optional `'+'` sign and ASCII digits denoting a non-zero value at
most 65535; every other input fails with error code
`AI_REMOTE_NOT_ALLOWED`. -/
theorem ollama_client_new_strict_loopback (s : String) :
    (ollama_client_new s = .ok (ollama_base_url_strip s) ↔
      amended_accepts_base_url s = true) ∧
    ((∃ e, ollama_client_new s = .error e ∧ e.code = "AI_REMOTE_NOT_ALLOWED") ↔
      amended_accepts_base_url s = false) := by
  have hv : validate_base_url (ollama_base_url_strip s) = amended_accepts_base_url s :=
    validate_base_url_chars (ollama_base_url_strip s)
  cases ha : amended_accepts_base_url s with
  | true =>
    rw [ha] at hv
    have hok : ollama_client_new s = .ok (ollama_base_url_strip s) := by
      simp only [ollama_client_new, hv, if_true]
    constructor
    · constructor
      · intro _
        rfl
      · intro _
        exact hok
    · constructor
      · rintro ⟨e, he, _⟩
        rw [hok] at he
        exact Except.noConfusion he
      · intro hcontra
        exact absurd hcontra (by decide)
  | false =>
    rw [ha] at hv
    have herr : ollama_client_new s = .error ((AppErr.new "AI_REMOTE_NOT_ALLOWED"
        "Ollama base URL must be http://127.0.0.1[:port]").with_details
        ("base_url=" ++ ollama_base_url_strip s)) := by
      simp only [ollama_client_new, hv, Bool.false_eq_true, if_false]
    constructor
    · constructor
      · intro hcontra
        rw [herr] at hcontra
        exact Except.noConfusion hcontra
      · intro hcontra
        exact absurd hcontra (by decide)
    · constructor
      · intro _
        rfl
      · intro _
        exact ⟨_, herr, rfl⟩

/-! ### C6 -/

lemma ltCL_irrefl : ∀ (l : List Char), ltCL l l = false
  | [] => rfl
  | a :: as => by
    simp [ltCL, ltCL_irrefl as]

lemma ltCL_trans : ∀ (a b c : List Char), ltCL a b = true → ltCL b c = true → ltCL a c = true
  | [], [], _ => by
    intro h _
    exact absurd h (by simp [ltCL])
  | [], _ :: _, [] => by
    intro _ h
    exact absurd h (by simp [ltCL])
  | [], _ :: _, _ :: _ => by
    intro _ _
    rfl
  | _ :: _, [], _ => by
    intro h _
    exact absurd h (by simp [ltCL])
  | _ :: _, _ :: _, [] => by
    intro _ h
    exact absurd h (by simp [ltCL])
  | x :: xs, y :: ys, z :: zs => by
    intro h1 h2
    simp only [ltCL, Bool.or_eq_true, Bool.and_eq_true, beq_iff_eq,
      decide_eq_true_eq] at h1 h2 ⊢
    rcases h1 with hxy | ⟨hxy, hrec1⟩
    · rcases h2 with hyz | ⟨hyz, _⟩
      · exact Or.inl (lt_trans hxy hyz)
      · exact Or.inl (hyz ▸ hxy)
    · rcases h2 with hyz | ⟨hyz, hrec2⟩
      · exact Or.inl (hxy ▸ hyz)
      · exact Or.inr ⟨hxy.trans hyz, ltCL_trans xs ys zs hrec1 hrec2⟩

lemma ltCL_connex : ∀ (a b : List Char), ltCL a b = false → ltCL b a = false → a = b
  | [], [] => fun _ _ => rfl
  | [], _ :: _ => by
    intro h _
    exact absurd h (by simp [ltCL])
  | _ :: _, [] => by
    intro _ h
    exact absurd h (by simp [ltCL])
  | x :: xs, y :: ys => by
    intro h1 h2
    simp only [ltCL, Bool.or_eq_false_iff, Bool.and_eq_false_iff, beq_iff_eq,
      decide_eq_false_iff_not, beq_eq_false_iff_ne, ne_eq] at h1 h2
    obtain ⟨hxy, hr1⟩ := h1
    obtain ⟨hyx, hr2⟩ := h2
    have hxyeq : x = y := by
      rcases lt_trichotomy x y with h | h | h
      · exact absurd h hxy
      · exact h
      · exact absurd h hyx
    subst hxyeq
    rcases hr1 with h | h
    · exact absurd rfl h
    · rcases hr2 with h' | h'
      · exact absurd rfl h'
      · rw [ltCL_connex xs ys h h']

lemma ltCL_asymm (a b : List Char) (h : ltCL a b = true) : ltCL b a = false := by
  cases hba : ltCL b a
  · rfl
  · have := ltCL_trans a b a h hba
    rw [ltCL_irrefl] at this
    exact Bool.noConfusion this

lemma strLe_total (a b : String) : strLe a b = true ∨ strLe b a = true := by
  unfold strLe strLt
  cases h : ltCL b.toList a.toList
  · left
    rfl
  · right
    rw [ltCL_asymm _ _ h]
    rfl

lemma strLe_trans (a b c : String) (h1 : strLe a b = true) (h2 : strLe b c = true) :
    strLe a c = true := by
  unfold strLe strLt at h1 h2 ⊢
  rw [Bool.not_eq_true'] at h1 h2 ⊢
  cases hca : ltCL c.toList a.toList
  · rfl
  · exfalso
    cases hab : ltCL a.toList b.toList
    · have heq := ltCL_connex _ _ hab h1
      rw [heq] at hca
      exact Bool.noConfusion (h2.symm.trans hca)
    · have := ltCL_trans _ _ _ hca hab
      exact Bool.noConfusion (h2.symm.trans this)

lemma hitLe_total (a b : String × ℝ) : hitLe a b = true ∨ hitLe b a = true := by
  unfold hitLe
  rcases lt_trichotomy a.2 b.2 with h | h | h
  · right
    exact decide_eq_true (Or.inl h)
  · rcases strLe_total a.1 b.1 with hs | hs
    · left
      exact decide_eq_true (Or.inr ⟨h, hs⟩)
    · right
      exact decide_eq_true (Or.inr ⟨h.symm, hs⟩)
  · left
    exact decide_eq_true (Or.inl h)

lemma hitLe_trans (a b c : String × ℝ) (h1 : hitLe a b = true) (h2 : hitLe b c = true) :
    hitLe a c = true := by
  unfold hitLe at h1 h2 ⊢
  have h1' := of_decide_eq_true h1
  have h2' := of_decide_eq_true h2
  apply decide_eq_true
  rcases h1' with hlt | ⟨heq, hle⟩
  · rcases h2' with hlt2 | ⟨heq2, _⟩
    · exact Or.inl (lt_trans hlt2 hlt)
    · exact Or.inl (heq2 ▸ hlt)
  · rcases h2' with hlt2 | ⟨heq2, hle2⟩
    · refine Or.inl ?_
      rw [heq]
      exact hlt2
    · exact Or.inr ⟨heq.trans heq2, strLe_trans _ _ _ hle hle2⟩

lemma storeOf_chunk_id (chunks : List EvidenceChunkM) (cid : String) (c : EvidenceChunkM)
    (h : storeOf chunks cid = some c) : c.chunk_id = cid := by
  unfold storeOf at h
  have := List.find?_some h
  simpa using this

lemma candLoop_mem (chunks : List EvidenceChunkM) (sf : Option (List String)) (dims : Nat)
    (qv : List ℚ) (qnorm : ℝ) (l : List (String × List ℚ)) (cands : List (String × ℝ))
    (h : candLoop chunks sf dims qv qnorm l = .ok cands) :
    ∀ p ∈ cands, ∃ v, (p.1, v) ∈ l ∧ l2_norm v ≠ 0 ∧
      p.2 = cosine_similarity qv v qnorm (l2_norm v) := by
  revert h
  induction l generalizing cands with
  | nil =>
    intro h p hp
    simp only [candLoop] at h
    have hc : ([] : List (String × ℝ)) = cands := Except.ok.inj h
    rw [← hc] at hp
    exact absurd hp (by simp)
  | cons hd rest ih =>
    obtain ⟨cid, v⟩ := hd
    intro h p hp
    simp only [candLoop] at h
    by_cases hdim : v.length ≠ dims
    · rw [if_pos hdim] at h
      exact Except.noConfusion h
    · rw [if_neg hdim] at h
      have hbody : (if l2_norm v = 0 then candLoop chunks sf dims qv qnorm rest
          else match candLoop chunks sf dims qv qnorm rest with
            | .error e => .error e
            | .ok rest' =>
              .ok ((cid, cosine_similarity qv v qnorm (l2_norm v)) :: rest')) = .ok cands →
          ∃ w, (p.1, w) ∈ (cid, v) :: rest ∧ l2_norm w ≠ 0 ∧
            p.2 = cosine_similarity qv w qnorm (l2_norm w) := by
        intro h'
        by_cases hz : l2_norm v = 0
        · rw [if_pos hz] at h'
          obtain ⟨w, hw, hwn, hws⟩ := ih cands h' p hp
          exact ⟨w, List.mem_cons_of_mem _ hw, hwn, hws⟩
        · rw [if_neg hz] at h'
          cases hr : candLoop chunks sf dims qv qnorm rest with
          | error e =>
            rw [hr] at h'
            exact Except.noConfusion h'
          | ok rest' =>
            rw [hr] at h'
            replace h' : (Except.ok ((cid, cosine_similarity qv v qnorm (l2_norm v)) :: rest') :
                Except QErr (List (String × ℝ))) = .ok cands := h'
            have hc := Except.ok.inj h'
            rw [← hc] at hp
            rcases List.mem_cons.mp hp with rfl | hmem
            · exact ⟨v, List.mem_cons_self _ _, hz, rfl⟩
            · obtain ⟨w, hw, hwn, hws⟩ := ih rest' hr p hmem
              exact ⟨w, List.mem_cons_of_mem _ hw, hwn, hws⟩
      cases sf with
      | none => exact hbody h
      | some filter =>
        cases hg : get_chunk (storeOf chunks) cid with
        | error e =>
          rw [hg] at h
          exact Except.noConfusion h
        | ok chunk =>
          rw [hg] at h
          replace h : (if filter.contains chunk.source_id then
              (if l2_norm v = 0 then candLoop chunks (some filter) dims qv qnorm rest
               else match candLoop chunks (some filter) dims qv qnorm rest with
                 | .error e => .error e
                 | .ok rest' =>
                   .ok ((cid, cosine_similarity qv v qnorm (l2_norm v)) :: rest'))
            else candLoop chunks (some filter) dims qv qnorm rest) = .ok cands := h
          cases hkeep : filter.contains chunk.source_id with
          | false =>
            rw [hkeep] at h
            replace h : candLoop chunks (some filter) dims qv qnorm rest = .ok cands := h
            obtain ⟨w, hw, hwn, hws⟩ := ih cands h p hp
            exact ⟨w, List.mem_cons_of_mem _ hw, hwn, hws⟩
          | true =>
            rw [hkeep] at h
            exact hbody h

lemma assembleHits_spec (chunks : List EvidenceChunkM) (l : List (String × ℝ))
    (out : List EvidenceQueryHitM) (h : assembleHits chunks l = .ok out) :
    out.map (fun x => (x.chunk_id, x.score)) = l := by
  revert h
  induction l generalizing out with
  | nil =>
    intro h
    simp only [assembleHits] at h
    have hc : ([] : List EvidenceQueryHitM) = out := Except.ok.inj h
    rw [← hc]
    rfl
  | cons hd rest ih =>
    obtain ⟨cid, score⟩ := hd
    intro h
    simp only [assembleHits] at h
    cases hg : get_chunk (storeOf chunks) cid with
    | error e =>
      rw [hg] at h
      exact Except.noConfusion h
    | ok chunk =>
      rw [hg] at h
      replace h : ((match snippet_first_chars chunk.text 280 with
        | none => .error .panicked
        | some snip =>
          match assembleHits chunks rest with
          | .error e => .error e
          | .ok others =>
            .ok (⟨chunk.chunk_id, chunk.source_id, score, snip,
              citation_for_chunk chunk⟩ :: others)) :
          Except QErr (List EvidenceQueryHitM)) = .ok out := h
      cases hs : snippet_first_chars chunk.text 280 with
      | none =>
        rw [hs] at h
        exact Except.noConfusion h
      | some snip =>
        rw [hs] at h
        cases ha : assembleHits chunks rest with
        | error e =>
          rw [ha] at h
          exact Except.noConfusion h
        | ok others =>
          rw [ha] at h
          replace h : (Except.ok (⟨chunk.chunk_id, chunk.source_id, score, snip,
              citation_for_chunk chunk⟩ :: others) :
              Except QErr (List EvidenceQueryHitM)) = .ok out := h
          have hc := Except.ok.inj h
          rw [← hc]
          have hcid : chunk.chunk_id = cid :=
            storeOf_chunk_id chunks cid chunk ((get_chunk_ok_iff _ _ _).mp hg)
          simp only [List.map_cons, hcid, ih others ha]

/-- C6: whenever `query_with_embedder` succeeds, the query embedding and
candidate scoring arise as recorded by the index status, every returned
candidate comes from a stored vector of non-zero L2 norm and carries its
cosine similarity; the hit list is the stable sort of the candidates by
score descending with ties broken by `chunk_id` ascending, truncated to
`top_k` clamped into `[1, 50]`. -/
theorem query_with_embedder_ranking (chunks : List EvidenceChunkM) (status : AiIndexStatusM)
    (vectors : List (String × List ℚ)) (embed : String → String → Except AppErr (List ℚ))
    (query : String) (top_k : Nat) (source_filter : Option (List String))
    (resp : EvidenceQueryResponseM)
    (hok : query_with_embedder chunks status vectors embed query top_k source_filter =
      .ok resp) :
    ∃ model dims qv cands,
      status.model = some model ∧ status.dims = some dims ∧
      embed model (rustTrim query) = .ok qv ∧
      candLoop chunks source_filter dims qv (l2_norm qv) vectors = .ok cands ∧
      (∀ p ∈ cands, ∃ v, (p.1, v) ∈ vectors ∧ l2_norm v ≠ 0 ∧
        p.2 = cosine_similarity qv v (l2_norm qv) (l2_norm v)) ∧
      resp.hits.map (fun x => (x.chunk_id, x.score)) =
        (sortByStable hitLe cands).take (min (max top_k 1) 50) ∧
      resp.hits.length = min (min (max top_k 1) 50) cands.length ∧
      resp.hits.Pairwise (fun a b => b.score < a.score ∨
        (a.score = b.score ∧ strLe a.chunk_id b.chunk_id = true)) := by
  simp only [query_with_embedder] at hok
  split at hok
  · exact Except.noConfusion hok
  split at hok
  · exact Except.noConfusion hok
  split at hok
  · exact Except.noConfusion hok
  rename_i model hmodel
  split at hok
  · exact Except.noConfusion hok
  rename_i dims hdims
  split at hok
  · exact Except.noConfusion hok
  rename_i qv hqv
  split at hok
  · exact Except.noConfusion hok
  rename_i hqvlen
  split at hok
  · exact Except.noConfusion hok
  rename_i hvecne
  split at hok
  · exact Except.noConfusion hok
  rename_i hqnorm
  split at hok
  · exact Except.noConfusion hok
  rename_i cands hcands
  split at hok
  · exact Except.noConfusion hok
  rename_i out hout
  have hresp : EvidenceQueryResponseM.mk out = resp := Except.ok.inj hok
  have hhits : resp.hits = out := by
    rw [← hresp]
  have hmap := assembleHits_spec chunks _ out hout
  refine ⟨model, dims, qv, cands, hmodel, hdims, hqv, hcands, ?_, ?_, ?_, ?_⟩
  · exact candLoop_mem chunks source_filter dims qv (l2_norm qv) vectors cands hcands
  · rw [hhits, hmap]
  · rw [hhits]
    have hlen : out.length = ((sortByStable hitLe cands).take (min (max top_k 1) 50)).length := by
      rw [← hmap, List.length_map]
    rw [hlen, List.length_take, (sortByStable_perm hitLe cands).length_eq]
  · rw [hhits]
    have hpw : ((sortByStable hitLe cands).take (min (max top_k 1) 50)).Pairwise
        (fun a b => hitLe a b = true) :=
      List.Pairwise.sublist (List.take_sublist _ _)
        (sortByStable_pairwise hitLe hitLe_trans hitLe_total cands)
    rw [← hmap] at hpw
    have hpw2 := List.pairwise_map.mp hpw
    refine hpw2.imp ?_
    intro a b hab
    exact of_decide_eq_true hab

/-- C6 witness. -/
theorem query_with_embedder_ranking_witness :
    ∃ model dims qv cands,
      (⟨true, some "m", some 1, 1, 1, none, none⟩ : AiIndexStatusM).model = some model ∧
      (⟨true, some "m", some 1, 1, 1, none, none⟩ : AiIndexStatusM).dims = some dims ∧
      (fun (_ _ : String) => (.ok [(1 : ℚ)] : Except AppErr (List ℚ))) model (rustTrim "q") =
        .ok qv ∧
      candLoop [(⟨"c1", "S", 0, "t", "h1", 1, ⟨"paragraph", none, none⟩⟩ : EvidenceChunkM)]
        none dims qv (l2_norm qv) [("c1", [(1 : ℚ)])] = .ok cands ∧
      (∀ p ∈ cands, ∃ v, (p.1, v) ∈ [("c1", [(1 : ℚ)])] ∧ l2_norm v ≠ 0 ∧
        p.2 = cosine_similarity qv v (l2_norm qv) (l2_norm v)) ∧
      (EvidenceQueryResponseM.mk [⟨"c1", "S", cosine_similarity [(1 : ℚ)] [(1 : ℚ)]
          (l2_norm [(1 : ℚ)]) (l2_norm [(1 : ℚ)]), "t",
          ⟨"c1", ⟨"S", 0, "h1", none⟩⟩⟩]).hits.map (fun x => (x.chunk_id, x.score)) =
        (sortByStable hitLe cands).take (min (max 5 1) 50) ∧
      (EvidenceQueryResponseM.mk [⟨"c1", "S", cosine_similarity [(1 : ℚ)] [(1 : ℚ)]
          (l2_norm [(1 : ℚ)]) (l2_norm [(1 : ℚ)]), "t",
          ⟨"c1", ⟨"S", 0, "h1", none⟩⟩⟩]).hits.length = min (min (max 5 1) 50) cands.length ∧
      (EvidenceQueryResponseM.mk [⟨"c1", "S", cosine_similarity [(1 : ℚ)] [(1 : ℚ)]
          (l2_norm [(1 : ℚ)]) (l2_norm [(1 : ℚ)]), "t",
          ⟨"c1", ⟨"S", 0, "h1", none⟩⟩⟩]).hits.Pairwise (fun a b => b.score < a.score ∨
        (a.score = b.score ∧ strLe a.chunk_id b.chunk_id = true)) := by
  have hq1 : l2_norm [(1 : ℚ)] ≠ 0 := by
    unfold l2_norm
    rw [show ((sumSq [(1 : ℚ)] : ℚ) : ℝ) = 1 by norm_num [sumSq]]
    rw [Real.sqrt_one]
    exact one_ne_zero
  have e1 : rustTrim "q" = "q" := by decide
  have e2 : get_chunk (storeOf [(⟨"c1", "S", 0, "t", "h1", 1,
      ⟨"paragraph", none, none⟩⟩ : EvidenceChunkM)]) "c1" =
      .ok ⟨"c1", "S", 0, "t", "h1", 1, ⟨"paragraph", none, none⟩⟩ := by decide
  have e3 : snippet_first_chars "t" 280 = some "t" := by decide
  have e4 : min (max 5 1) 50 = 5 := by decide
  have e5 : List.take 5 [("c1", cosine_similarity [(1 : ℚ)] [(1 : ℚ)]
      (l2_norm [(1 : ℚ)]) (l2_norm [(1 : ℚ)]))] =
      [("c1", cosine_similarity [(1 : ℚ)] [(1 : ℚ)]
        (l2_norm [(1 : ℚ)]) (l2_norm [(1 : ℚ)]))] :=
    List.take_of_length_le (by simp)
  have hok : query_with_embedder
      [(⟨"c1", "S", 0, "t", "h1", 1, ⟨"paragraph", none, none⟩⟩ : EvidenceChunkM)]
      ⟨true, some "m", some 1, 1, 1, none, none⟩ [("c1", [(1 : ℚ)])]
      (fun _ _ => .ok [(1 : ℚ)]) "q" 5 none =
      .ok ⟨[⟨"c1", "S", cosine_similarity [(1 : ℚ)] [(1 : ℚ)]
        (l2_norm [(1 : ℚ)]) (l2_norm [(1 : ℚ)]), "t",
        ⟨"c1", ⟨"S", 0, "h1", none⟩⟩⟩]⟩ := by
    simp [query_with_embedder, candLoop, assembleHits, sortByStable, insertStable,
      citation_for_chunk, e1, e2, e3, e4, e5, hq1]
  exact query_with_embedder_ranking
    [(⟨"c1", "S", 0, "t", "h1", 1, ⟨"paragraph", none, none⟩⟩ : EvidenceChunkM)]
    ⟨true, some "m", some 1, 1, 1, none, none⟩ [("c1", [(1 : ℚ)])]
    (fun _ _ => .ok [(1 : ℚ)]) "q" 5 none
    ⟨[⟨"c1", "S", cosine_similarity [(1 : ℚ)] [(1 : ℚ)]
      (l2_norm [(1 : ℚ)]) (l2_norm [(1 : ℚ)]), "t",
      ⟨"c1", ⟨"S", 0, "h1", none⟩⟩⟩]⟩ hok

end QirAi
